import Mathlib

/-!
Shallow embedding of the dungeon generator in `generate.go` of the
ebiten-zen repository, together with theorems checking the specification's
claims about it.

Modelling conventions:
* Go `int` is modelled as `Int`; Go's truncated integer division `/` and
  remainder `%` on ints are `Int.tdiv` / `Int.tmod`.  `rng.Int()` is a
  non-negative value, modelled as a `Nat` drawn from an explicit stream.
* `Tiles [][]DungeonTile` (indexed `[y][x]`) is `List (List DungeonTile)`.
  Reads outside the allocated array yield `DungeonTile.void` and writes
  outside it are no-ops; in the Go code every raw access is guarded by a
  bounds check beforehand, so these cases are never exercised on the
  configurations the theorems quantify over.
* `map[Rect]struct{}` / `map[Rect]DoorDirection` are association lists with
  insert-if-absent / replace-on-insert semantics.  Go's random map
  iteration order only occurs over sets of independent single-cell writes,
  where order does not affect the result; the model fixes one order.
* Wall-clock comparisons (`DurationBeforeError`, `DurationBeforeRetry`) are
  modelled by an explicit stream of boolean pairs, one pair consumed per
  check site: the first component is the hard-timeout comparison, the
  second the retry comparison.
* The unbounded retry recursion and the generation loops are given explicit
  fuel; a run that returns `none` is one that was not given enough fuel and
  corresponds to no terminating execution of the Go code.
-/

namespace ZenGen

/-- `DungeonTile` from generate.go. -/
inductive DungeonTile where
  | void
  | wall
  | preWall
  | floor
  | doorTile
  | roomBegin
  | roomEnd
deriving DecidableEq, Repr

/-- `DoorDirection` from generate.go. -/
inductive DoorDirection where
  | horizontal
  | vertical
deriving DecidableEq, Repr

/-- The four error values of generate.go. -/
inductive GenError where
  | outOfBounds
  | notEnoughSpace
  | generationTimeout
  | floorAlreadyPlaced
deriving DecidableEq, Repr

/-- `Rect` from generate.go; also used degenerately (w = h = 0) as a
coordinate key for flood-fill visited sets and coarse grid cells. -/
structure Rect where
  x : Int
  y : Int
  w : Int
  h : Int
deriving DecidableEq, Repr

/-- The `Dungeon` struct of generate.go (the timing fields are replaced by
the explicit clock stream, and `ShowErrorMessages` only gates logging). -/
structure Dungeon where
  width : Int
  height : Int
  tiles : List (List DungeonTile)
  rooms : List Rect
  doors : List (Rect × DoorDirection)
  border : Int
  wallThickness : Int
  minDoorSize : Int
  maxDoorSize : Int
  allowRandomCorridorOffset : Bool
  maxRoomWidth : Int
  maxRoomHeight : Int
  minRoomWidth : Int
  minRoomHeight : Int
  minIslandSize : Int
deriving DecidableEq, Repr

/-- `minInt` from generate.go. -/
def minInt (a b : Int) : Int := if a < b then a else b

/-- `maxInt` from generate.go. -/
def maxInt (a b : Int) : Int := if a > b then a else b

/-- Raw read of `dungeon.Tiles[y][x]`. -/
def getRaw (tiles : List (List DungeonTile)) (x y : Int) : DungeonTile :=
  if x < 0 ∨ y < 0 then DungeonTile.void
  else (tiles.getD y.toNat []).getD x.toNat DungeonTile.void

/-- Raw write `dungeon.Tiles[y][x] = t` (no-op outside the allocated
array; the Go code never reaches such a write). -/
def setRaw (tiles : List (List DungeonTile)) (x y : Int) (t : DungeonTile) :
    List (List DungeonTile) :=
  if x < 0 ∨ y < 0 then tiles
  else tiles.set y.toNat ((tiles.getD y.toNat []).set x.toNat t)

/-- The list `[lo, lo+1, ..., hi-1]`, the index sequence of a Go loop
`for i := lo; i < hi; i++`. -/
def intRange (lo hi : Int) : List Int :=
  (List.range (hi - lo).toNat).map (fun (i : Nat) => lo + (i : Int))

/-- The out-of-band test of `GetTile`/`SetTile`:
`x >= w-b || x < 0+b || y >= h-b || y < 0+b`. -/
def outsideBand (w h b x y : Int) : Prop :=
  x ≥ w - b ∨ x < b ∨ y ≥ h - b ∨ y < b

instance (w h b x y : Int) : Decidable (outsideBand w h b x y) := by
  unfold outsideBand; infer_instance

/-- `GetTile` from generate.go. -/
def GetTile (d : Dungeon) (x y : Int) : Except GenError DungeonTile :=
  if outsideBand d.width d.height d.border x y then Except.error GenError.outOfBounds
  else Except.ok (getRaw d.tiles x y)

/-- `SetTile` from generate.go: only `Floor` writes are band-checked. -/
def SetTile (d : Dungeon) (x y : Int) (t : DungeonTile) :
    Except GenError Unit × Dungeon :=
  if t = DungeonTile.floor ∧ outsideBand d.width d.height d.border x y then
    (Except.error GenError.outOfBounds, d)
  else
    (Except.ok (), { d with tiles := setRaw d.tiles x y t })

/-- `ResetDungeon` from generate.go: reallocate the tile array and clear
the `Rooms` and `Doors` registries. -/
def ResetDungeon (d : Dungeon) (width height : Int) : Dungeon :=
  { d with
    tiles := List.replicate height.toNat (List.replicate width.toNat DungeonTile.void)
    rooms := []
    doors := [] }

/-- The Go pattern `tile, err := GetTile(x,y); err == nil && tile == checkType`. -/
def tileIs (d : Dungeon) (x y : Int) (checkType : DungeonTile) : Bool :=
  match GetTile d x y with
  | Except.ok t => t = checkType
  | Except.error _ => false

/-- The Go pattern `tile, err := GetTile(x,y); err == nil && tile != Void`
used in the random-walk stamp loop. -/
def tileNonVoid (d : Dungeon) (x y : Int) : Bool :=
  match GetTile d x y with
  | Except.ok t => t ≠ DungeonTile.void
  | Except.error _ => false

/-- The wall stamp of `AddWalls` around a `Floor` cell: every `Void` cell
within Chebyshev distance `t` becomes `Wall` (loops `dx` then `dy`, both
from `-t` to `t` inclusive). -/
def addWallsStamp (t x y : Int) (d : Dungeon) : Dungeon :=
  (intRange (-t) (t + 1)).foldl (fun a dx =>
    (intRange (-t) (t + 1)).foldl (fun a2 dy =>
      if tileIs a2 (x + dx) (y + dy) DungeonTile.void then
        (SetTile a2 (x + dx) (y + dy) DungeonTile.wall).2
      else a2) a) d

/-- One cell of the `AddWalls` scan. -/
def addWallsCell (t : Int) (d : Dungeon) (x y : Int) : Dungeon :=
  match GetTile d x y with
  | Except.ok DungeonTile.floor => addWallsStamp t x y d
  | Except.ok DungeonTile.preWall => (SetTile d x y DungeonTile.wall).2
  | _ => d

/-- `AddWalls` from generate.go: the scan runs with `Border` temporarily
set to 0 and restores it afterwards. -/
def AddWalls (d : Dungeon) : Dungeon :=
  let t := d.wallThickness
  let b := d.border
  let d0 := { d with border := 0 }
  let d1 := (intRange 0 d.height).foldl (fun a y =>
    (intRange 0 d.width).foldl (fun a2 x => addWallsCell t a2 x y) a) d0
  { d1 with border := b }

/-- `countSurrounding` from generate.go: number of cells of the
8-neighborhood (band-visible through `GetTile`) equal to `checkType`. -/
def countSurrounding (d : Dungeon) (x y : Int) (checkType : DungeonTile) : Int :=
  (intRange (-1) 2).foldl (fun c dx =>
    (intRange (-1) 2).foldl (fun c2 dy =>
      if ¬(dx = 0 ∧ dy = 0) ∧ tileIs d (x + dx) (y + dy) checkType then c2 + 1
      else c2) c) 0

/-- `CleanWalls` from generate.go: a `Wall` cell whose 8-neighborhood holds
at least `mustSurroundCount` `Floor` cells becomes `Floor`, scanning rows
top to bottom and cells left to right on the evolving grid. -/
def CleanWalls (d : Dungeon) (mustSurroundCount : Int) : Dungeon :=
  (intRange 0 d.height).foldl (fun a y =>
    (intRange 0 d.width).foldl (fun a2 x =>
      if tileIs a2 x y DungeonTile.wall ∧
          countSurrounding a2 x y DungeonTile.floor ≥ mustSurroundCount then
        (SetTile a2 x y DungeonTile.floor).2
      else a2) a) d

/-- The recursive closure `g` inside `countIslandPolar`: depth-first
4-connected flood fill collecting (into the visited list `m`) every cell
reachable through cells that `GetTile` reports equal to `checkType`.  The
Go recursion is unbounded but terminates because the visited set grows
inside the `GetTile` band; the fuel passed by `countIslandPolar` strictly
exceeds the band size, which the exactness lemmas show is enough. -/
def floodAux (d : Dungeon) (checkType : DungeonTile) :
    Nat → List Rect → Int → Int → List Rect
  | 0, m, _, _ => m
  | Nat.succ fuel, m, x, y =>
    if tileIs d x y checkType then
      let c : Rect := ⟨x, y, 0, 0⟩
      if c ∈ m then m
      else
        let m1 := floodAux d checkType fuel (c :: m) (x + 1) y
        let m2 := floodAux d checkType fuel m1 (x - 1) y
        let m3 := floodAux d checkType fuel m2 x (y + 1)
        floodAux d checkType fuel m3 x (y - 1)
    else m

/-- `countIslandPolar` from generate.go: the island containing `(x,y)` and
its size. -/
def countIslandPolar (d : Dungeon) (x y : Int) (checkType : DungeonTile) :
    Int × List Rect :=
  let m := floodAux d checkType (d.width.toNat * d.height.toNat + 1) [] x y
  ((m.length : Int), m)

/-- One scan position of `CleanIslands`: if `(x,y)` is in no island found
so far, flood-fill its island, record it, and convert it entirely to
`Floor` when it is smaller than `MinIslandSize`. -/
def cleanIslandsStep (st : Dungeon × List (List Rect)) (x y : Int) :
    Dungeon × List (List Rect) :=
  let c : Rect := ⟨x, y, 0, 0⟩
  if st.2.any (fun i => c ∈ i) then st
  else
    let cm := countIslandPolar st.1 x y DungeonTile.void
    let d' :=
      if cm.1 < st.1.minIslandSize then
        cm.2.foldl (fun a co => (SetTile a co.x co.y DungeonTile.floor).2) st.1
      else st.1
    (d', st.2 ++ [cm.2])

/-- `CleanIslands` from generate.go (scan order: `x` outer, `y` inner). -/
def CleanIslands (d : Dungeon) : Dungeon :=
  ((intRange 0 d.width).foldl (fun st x =>
    (intRange 0 d.height).foldl (fun st2 y => cleanIslandsStep st2 x y) st)
    (d, [])).1

/-- The oracle streams of a generation run: the values produced by
`rng.Int()` and, for each timeout check site, the two deadline
comparisons (hard error deadline, retry deadline). -/
structure Streams where
  rng : List Nat
  clock : List (Bool × Bool)
deriving DecidableEq, Repr

/-- Draw the next `rng.Int()` value. -/
def popRng : List Nat → Nat × List Nat
  | [] => (0, [])
  | n :: r => (n, r)

/-- Read the two deadline comparisons of one check site. -/
def popClock : List (Bool × Bool) → (Bool × Bool) × List (Bool × Bool)
  | [] => ((false, false), [])
  | p :: r => (p, r)

/-- `randInt` from generate.go: `rng.Int()%(b+1-a) + a`. -/
def randInt (a b : Int) (r : List Nat) : Int × List Nat :=
  let nr := popRng r
  (Int.tmod (nr.1 : Int) (b + 1 - a) + a, nr.2)

/-- The cells targeted by one random-walk stamp of side value `cs` at the
walker position `(x,y)`: loops `tx` from `x-cs/2` (inclusive) to `x+cs/2`
(exclusive), `ty` likewise. -/
def rwStampTargets (x y cs : Int) : List (Int × Int) :=
  (intRange (x - Int.tdiv cs 2) (x + Int.tdiv cs 2)).flatMap (fun tx =>
    (intRange (y - Int.tdiv cs 2) (y + Int.tdiv cs 2)).map (fun ty => (tx, ty)))

/-- The body of the stamp loops of `GenerateRandomWalk`: walk the target
cells in order, counting progress `tc`, skipping non-`Void` cells, and on
an out-of-bounds `Floor` write reset the walker to the grid center and
abort the stamp (`goto cont`).  Returns the updated dungeon, `tc`, walker
position, and whether the stamp aborted. -/
def rwStampGo (w h : Int) :
    List (Int × Int) → Dungeon → Int → Int → Int → Dungeon × Int × Int × Int × Bool
  | [], d, tc, x, y => (d, tc, x, y, false)
  | p :: rest, d, tc, x, y =>
    let tc1 := tc + 1
    if tileNonVoid d p.1 p.2 then rwStampGo w h rest d (tc1 - 1) x y
    else
      let q := SetTile d p.1 p.2 DungeonTile.floor
      match q.1 with
      | Except.error _ => (q.2, tc1 - 1, Int.tdiv w 2, Int.tdiv h 2, true)
      | Except.ok _ => rwStampGo w h rest q.2 tc1 x y

/-- One position of the midline scan of the convexity check of
`GenerateRandomWalk` (state: `foundFloor`, `inGap`, `convX`; once `convX`
is set the Go code jumps to `done`, so the state freezes). -/
def convexityStep (d : Dungeon) (cy : Int) (st : Bool × Bool × Bool) (cx : Int) :
    Bool × Bool × Bool :=
  if st.2.2 then st
  else
    match GetTile d cx cy with
    | Except.ok DungeonTile.floor =>
      if st.1 ∧ st.2.1 then (st.1, st.2.1, true) else (true, st.2.1, st.2.2)
    | Except.ok DungeonTile.void =>
      if st.1 then (st.1, true, st.2.2) else st
    | _ => st

/-- The midline scan of the convexity check of `GenerateRandomWalk`. -/
def convexityFound (d : Dungeon) (minX maxX minY maxY : Int) : Bool :=
  let cy := minY + Int.tdiv (maxY - minY) 2
  ((intRange minX maxX).foldl (convexityStep d cy)
    ((false, false, false) : Bool × Bool × Bool)).2.2

/-- The retry decision after the midline scan: the attempt is retried
exactly when `convX` is false (`if !convX { return g() }`). -/
def convexityRetry (d : Dungeon) (minX maxX minY maxY : Int) : Bool :=
  !convexityFound d minX maxX minY maxY

/-- Walker state of one `GenerateRandomWalk` attempt. -/
structure RWState where
  d : Dungeon
  x : Int
  y : Int
  dx : Int
  dy : Int
  tc : Int
  minX : Int
  maxX : Int
  minY : Int
  maxY : Int
  s : Streams
deriving Repr

/-- Outcome of one `GenerateRandomWalk` attempt. -/
inductive RWOutcome where
  | success
  | retryConvexity
  | retryTimeout
  | hardTimeout
deriving DecidableEq, Repr

/-- The walk loop of one `GenerateRandomWalk` attempt (`for tc < tileCount`),
ending in the convexity check. -/
def rwLoop (tileCount : Int) : Nat → RWState → Option (RWOutcome × RWState)
  | 0, _ => none
  | Nat.succ fuel, st =>
    if st.tc < tileCount then
      let cl := popClock st.s.clock
      let st1 : RWState := { st with s := ⟨st.s.rng, cl.2⟩ }
      if cl.1.1 then some (RWOutcome.hardTimeout, st1)
      else if cl.1.2 then some (RWOutcome.retryTimeout, st1)
      else
        let nr := popRng st1.s.rng
        let st2 : RWState := { st1 with s := ⟨nr.2, st1.s.clock⟩ }
        let dxy : Int × Int :=
          match nr.1 % 8 with
          | 0 => (-1, 0)
          | 1 => (1, 0)
          | 2 => (0, -1)
          | 3 => (0, 1)
          | _ => (st2.dx, st2.dy)
        let x1 := st2.x + dxy.1
        let y1 := st2.y + dxy.2
        let csr := randInt st2.d.minDoorSize st2.d.maxDoorSize st2.s.rng
        let st3 : RWState := { st2 with s := ⟨csr.2, st2.s.clock⟩ }
        let res := rwStampGo st3.d.width st3.d.height (rwStampTargets x1 y1 csr.1)
          st3.d st3.tc x1 y1
        let d4 := res.1
        let tc4 := res.2.1
        let x4 := res.2.2.1
        let y4 := res.2.2.2.1
        let aborted := res.2.2.2.2
        if aborted then
          rwLoop tileCount fuel
            { st3 with
              d := d4, tc := tc4, x := x4, y := y4, dx := dxy.1, dy := dxy.2 }
        else
          rwLoop tileCount fuel
            { st3 with
              d := d4, tc := tc4, x := x4, y := y4, dx := dxy.1, dy := dxy.2,
              minX := minInt st3.minX x4, maxX := maxInt st3.maxX x4,
              minY := minInt st3.minY y4, maxY := maxInt st3.maxY y4 }
    else
      if convexityRetry st.d st.minX st.maxX st.minY st.maxY then
        some (RWOutcome.retryConvexity, st)
      else some (RWOutcome.success, st)

/-- `GenerateRandomWalk` from generate.go: the retry closure `g`, with each
attempt resetting the dungeon and running the walk loop. -/
def GenerateRandomWalkAux (tileCount : Int) :
    Nat → Dungeon → Streams → Option (Except GenError Unit × Dungeon × Streams)
  | 0, _, _ => none
  | Nat.succ fuel, d, s =>
    let d0 := ResetDungeon d d.width d.height
    let st0 : RWState :=
      ⟨d0, Int.tdiv d.width 2, Int.tdiv d.height 2, 0, 0, 0,
        d.width, 0, d.height, 0, s⟩
    match rwLoop tileCount (Nat.succ fuel) st0 with
    | none => none
    | some (RWOutcome.hardTimeout, st) =>
      some (Except.error GenError.generationTimeout, st.d, st.s)
    | some (RWOutcome.retryTimeout, st) => GenerateRandomWalkAux tileCount fuel st.d st.s
    | some (RWOutcome.retryConvexity, st) => GenerateRandomWalkAux tileCount fuel st.d st.s
    | some (RWOutcome.success, st) => some (Except.ok (), st.d, st.s)

/-- Read of the coarse layout array `rooms[iy][ix]` of `GenerateDungeonGrid`. -/
def getB (rooms : List (List Bool)) (ix iy : Int) : Bool :=
  if ix < 0 ∨ iy < 0 then false
  else (rooms.getD iy.toNat []).getD ix.toNat false

/-- Write `rooms[iy][ix] = true`. -/
def setB (rooms : List (List Bool)) (ix iy : Int) : List (List Bool) :=
  if ix < 0 ∨ iy < 0 then rooms
  else rooms.set iy.toNat ((rooms.getD iy.toNat []).set ix.toNat true)

/-- `countAdj` from `GenerateDungeonGrid`: used coarse neighbors of a
coarse cell. -/
def countAdj (mw mh : Int) (rooms : List (List Bool)) (iy ix : Int) : Int :=
  (if iy > 0 ∧ getB rooms ix (iy - 1) then 1 else 0) +
  (if iy + 1 < mh ∧ getB rooms ix (iy + 1) then 1 else 0) +
  (if ix > 0 ∧ getB rooms (ix - 1) iy then 1 else 0) +
  (if ix + 1 < mw ∧ getB rooms (ix + 1) iy then 1 else 0)

/-- The backtrack scan of `GenerateDungeonGrid`: the first previously
accepted coarse cell (in acceptance order across all branches) whose
`countAdj` lies in `[0, 2]`. -/
def findBacktrack (mw mh : Int) (rooms : List (List Bool))
    (prs : List (List Rect)) : Option Rect :=
  (prs.flatMap id).find? (fun rc =>
    decide (0 ≤ countAdj mw mh rooms rc.y rc.x ∧ countAdj mw mh rooms rc.y rc.x ≤ 2))

/-- Append a coarse cell to the last branch of `previousRooms`. -/
def appendLast (prs : List (List Rect)) (r : Rect) : List (List Rect) :=
  prs.dropLast ++ [prs.getLastD [] ++ [r]]

/-- Result of the coarse placement loop of one `GenerateDungeonGrid`
attempt. -/
inductive DGLoopRes where
  | hardTimeout (s : Streams)
  | retryTimeout (s : Streams)
  | noSpace (s : Streams)
  | done (prs : List (List Rect)) (s : Streams)
deriving Repr

/-- The coarse walker loop of `GenerateDungeonGrid`
(`for rc := roomCount; rc > 0; rc--`, with `rc++` on a rejected step). -/
def dgLoop (mw mh : Int) :
    Nat → Int → Int → Int → List (List Bool) → List (List Rect) → Streams →
    Option DGLoopRes
  | 0, _, _, _, _, _, _ => none
  | Nat.succ fuel, rc, sx, sy, rooms, prs, s =>
    if rc > 0 then
      let cl := popClock s.clock
      let s1 : Streams := ⟨s.rng, cl.2⟩
      if cl.1.1 then some (DGLoopRes.hardTimeout s1)
      else if cl.1.2 then some (DGLoopRes.retryTimeout s1)
      else
        let nr := popRng s1.rng
        let s2 : Streams := ⟨nr.2, s1.clock⟩
        let sxy : Int × Int :=
          match nr.1 % 4 with
          | 0 => (sx - 1, sy)
          | 1 => (sx + 1, sy)
          | 2 => (sx, sy - 1)
          | _ => (sx, sy + 1)
        let sx1 := sxy.1
        let sy1 := sxy.2
        if sx1 ≥ mw ∨ sx1 ≤ 0 ∨ sy1 ≥ mh ∨ sy1 ≤ 0 ∨
            (countAdj mw mh rooms sy1 sx1 ≥ 2 ∧ getB rooms sx1 sy1) then
          match findBacktrack mw mh rooms prs with
          | none => some (DGLoopRes.noSpace s2)
          | some c =>
            let prs1 := prs ++ [[]]
            let rooms' := setB rooms c.x c.y
            let prs2 := appendLast prs1 ⟨c.x, c.y, 0, 0⟩
            dgLoop mw mh fuel rc c.x c.y rooms' prs2 s2
        else
          let rooms' := setB rooms sx1 sy1
          let prs2 := appendLast prs ⟨sx1, sy1, 0, 0⟩
          dgLoop mw mh fuel (rc - 1) sx1 sy1 rooms' prs2 s2
    else some (DGLoopRes.done prs s)

/-- Insert into the `Rooms` set (`map[Rect]struct{}`). -/
def insertRoom (rs : List Rect) (r : Rect) : List Rect :=
  if r ∈ rs then rs else rs ++ [r]

/-- Insert into the `Doors` map (`map[Rect]DoorDirection`). -/
def insertDoor (ds : List (Rect × DoorDirection)) (k : Rect) (v : DoorDirection) :
    List (Rect × DoorDirection) :=
  if ds.any (fun p => p.1 = k) then
    ds.map (fun p => if p.1 = k then (k, v) else p)
  else ds ++ [(k, v)]

/-- Room placement of the `GenerateDungeonGrid` fill phase: register the
fixed-size room of coarse cell `cur` and stamp its `Floor` footprint. -/
def dgPlaceRoom (d : Dungeon) (s : Int) (cur : Rect) : Dungeon :=
  let room : Rect :=
    ⟨cur.x * s + cur.x * d.wallThickness - d.maxRoomWidth,
      cur.y * s + cur.y * d.wallThickness - d.maxRoomWidth,
      d.maxRoomWidth, d.maxRoomWidth⟩
  let d1 := { d with rooms := insertRoom d.rooms room }
  (intRange room.x (room.x + room.w)).foldl (fun a dx =>
    (intRange room.y (room.y + room.h)).foldl (fun a2 dy =>
      (SetTile a2 dx dy DungeonTile.floor).2) a) d1

/-- Corridor construction between consecutive coarse cells of one branch
in the `GenerateDungeonGrid` fill phase (`sx`,`sy` are the coarse
coordinates of `cur`). -/
def dgCorridor (d : Dungeon) (s : Int) (cur prev : Rect) (str : Streams) :
    Dungeon × Streams :=
  let wt := d.wallThickness
  let mrw := d.maxRoomWidth
  let sx := cur.x
  let sy := cur.y
  let dx := cur.x - prev.x
  let dy := cur.y - prev.y
  let x1 := prev.x * s - Int.tdiv mrw 2
  let x2 := cur.x * s - Int.tdiv mrw 2
  let y1 := prev.y * s - Int.tdiv mrw 2
  let y2 := cur.y * s - Int.tdiv mrw 2
  let csr := randInt d.minDoorSize d.maxDoorSize str.rng
  let cs := csr.1
  let ocy :=
    if d.allowRandomCorridorOffset then
      randInt (Int.tdiv (-(mrw - cs)) 2) (Int.tdiv (mrw - cs) 2) csr.2
    else (0, csr.2)
  let ocx :=
    if d.allowRandomCorridorOffset then
      randInt (Int.tdiv (-(mrw - cs)) 2) (Int.tdiv (mrw - cs) 2) ocy.2
    else (0, ocy.2)
  let offsetCy := ocy.1
  let offsetCx := ocx.1
  let str' : Streams := ⟨ocx.2, str.clock⟩
  let box : Int × Int × Int × Int × DoorDirection :=
    if dx = -1 then
      let nx1 := x2 + Int.tdiv mrw 2 + Int.tmod mrw 2
      (nx1, nx1 + wt, y1 - Int.tdiv cs 2 - offsetCy,
        y2 + Int.tdiv cs 2 + Int.tmod cs 2 - offsetCy, DoorDirection.vertical)
    else if dx = 1 then
      let nx1 := x2 - Int.tdiv mrw 2 - wt
      (nx1, nx1 + wt, y1 - Int.tdiv cs 2 - offsetCy,
        y2 + Int.tdiv cs 2 + Int.tmod cs 2 - offsetCy, DoorDirection.vertical)
    else if dy = -1 then
      let ny1 := y2 + Int.tdiv mrw 2 + Int.tmod mrw 2
      (x1 - Int.tdiv cs 2 - offsetCx, x2 + Int.tdiv cs 2 + Int.tmod cs 2 - offsetCx,
        ny1, ny1 + wt, DoorDirection.horizontal)
    else if dy = 1 then
      let ny1 := y2 - Int.tdiv mrw 2 - wt
      (x1 - Int.tdiv cs 2 - offsetCx, x2 + Int.tdiv cs 2 + Int.tmod cs 2 - offsetCx,
        ny1, ny1 + wt, DoorDirection.horizontal)
    else (x1, x2, y1, y2, DoorDirection.horizontal)
  let bx1 := box.1
  let bx2 := box.2.1
  let by1 := box.2.2.1
  let by2 := box.2.2.2.1
  let cd := box.2.2.2.2
  let cx0 : Rect := ⟨bx1 + sx * wt, by1 + sy * wt, bx2 - bx1, by2 - by1⟩
  let cx1 : Rect :=
    if wt > 1 then
      match cd with
      | DoorDirection.horizontal =>
        { cx0 with h := 1, y := cx0.y + (Int.tdiv wt 2 + Int.tmod wt 2) - 1 }
      | DoorDirection.vertical =>
        { cx0 with w := 1, x := cx0.x + (Int.tdiv wt 2 + Int.tmod wt 2) - 1 }
    else cx0
  let d1 := { d with doors := insertDoor d.doors cx1 cd }
  let d2 := (intRange bx1 bx2).foldl (fun a x =>
    (intRange by1 by2).foldl (fun a2 y =>
      (SetTile a2 (x + sx * wt) (y + sy * wt) DungeonTile.floor).2) a) d1
  (d2, str')

/-- One cell of the fill phase of `GenerateDungeonGrid`: place the room
of coarse cell `cur`; when a predecessor exists (every cell after the
first of a branch), also carve the corridor to it.  The third component
tracks `prev`. -/
def dgBranchStep (s : Int) :
    Dungeon × Streams × Option Rect → Rect → Dungeon × Streams × Option Rect
  | (ad, astr, none), cur => (dgPlaceRoom ad s cur, astr, some cur)
  | (ad, astr, some prev), cur =>
    ((dgCorridor (dgPlaceRoom ad s cur) s cur prev astr).1,
      (dgCorridor (dgPlaceRoom ad s cur) s cur prev astr).2, some cur)

/-- Fill phase of `GenerateDungeonGrid` over one branch of
`previousRooms`: place every room; from the second room on, connect it to
its predecessor by a corridor. -/
def dgPlaceBranch (d : Dungeon) (s : Int) (branch : List Rect) (str : Streams) :
    Dungeon × Streams :=
  let res := branch.foldl (dgBranchStep s) (d, str, none)
  (res.1, res.2.1)

/-- `GenerateDungeonGrid` from generate.go: retry closure around the
coarse walker loop and the fill phase. -/
def GenerateDungeonGridAux (roomCount : Int) :
    Nat → Dungeon → Streams → Option (Except GenError Unit × Dungeon × Streams)
  | 0, _, _ => none
  | Nat.succ fuel, d, str =>
    let s := d.maxRoomWidth
    let mw := Int.tdiv (d.width - d.border * 2) (s + d.wallThickness) + 1
    let mh := Int.tdiv (d.height - d.border * 2) (s + d.wallThickness) + 1
    let d0 := ResetDungeon d d.width d.height
    let rooms0 := List.replicate mh.toNat (List.replicate mw.toNat false)
    match dgLoop mw mh (Nat.succ fuel) roomCount (Int.tdiv mw 2) (Int.tdiv mh 2)
        rooms0 [[]] str with
    | none => none
    | some (DGLoopRes.hardTimeout s') =>
      some (Except.error GenError.generationTimeout, d0, s')
    | some (DGLoopRes.retryTimeout s') => GenerateDungeonGridAux roomCount fuel d s'
    | some (DGLoopRes.noSpace s') =>
      some (Except.error GenError.notEnoughSpace, d0, s')
    | some (DGLoopRes.done prs s') =>
      let fin := prs.foldl (fun (acc : Dungeon × Streams) br =>
        dgPlaceBranch acc.1 s br acc.2) (d0, s')
      some (Except.ok (), fin.1, fin.2)

/-- The footprint-plus-margin cell list of `placeRoom` (outer loop `dx`,
inner loop `dy`). -/
def roomArea (wt x y w h : Int) : List (Int × Int) :=
  (intRange (x - wt) (x + w + wt)).flatMap (fun dx =>
    (intRange (y - wt) (y + h + wt)).map (fun dy => (dx, dy)))

/-- The overlap check of `placeRoom`: the first cell that is `Floor` gives
`ErrFloorAlreadyPlaced`, the first out-of-band cell gives the `GetTile`
error. -/
def placeRoomCheck (d : Dungeon) : List (Int × Int) → Except GenError Unit
  | [] => Except.ok ()
  | p :: rest =>
    match GetTile d p.1 p.2 with
    | Except.ok t =>
      if t = DungeonTile.floor then Except.error GenError.floorAlreadyPlaced
      else placeRoomCheck d rest
    | Except.error e => Except.error e

/-- The write phase of `placeRoom`: `PreWall` on the currently-`Void`
margin, `Floor` on the footprint, aborting on a write error. -/
def placeRoomWrite (x y w h : Int) :
    List (Int × Int) → Dungeon → Except GenError Unit × Dungeon
  | [], d => (Except.ok (), d)
  | p :: rest, d =>
    if p.1 < x ∨ p.1 > x + w - 1 ∨ p.2 < y ∨ p.2 > y + h - 1 then
      if tileIs d p.1 p.2 DungeonTile.void then
        let q := SetTile d p.1 p.2 DungeonTile.preWall
        match q.1 with
        | Except.error e => (Except.error e, q.2)
        | Except.ok _ => placeRoomWrite x y w h rest q.2
      else placeRoomWrite x y w h rest d
    else
      let q := SetTile d p.1 p.2 DungeonTile.floor
      match q.1 with
      | Except.error e => (Except.error e, q.2)
      | Except.ok _ => placeRoomWrite x y w h rest q.2

/-- `placeRoom` from `GenerateDungeon`: overlap check, then writes, then
registration in `Rooms`. -/
def placeRoom (d : Dungeon) (x y w h : Int) : Except GenError Unit × Dungeon :=
  let area := roomArea d.wallThickness x y w h
  match placeRoomCheck d area with
  | Except.error e => (Except.error e, d)
  | Except.ok _ =>
    let r := placeRoomWrite x y w h area d
    match r.1 with
    | Except.error e => (Except.error e, r.2)
    | Except.ok _ =>
      (Except.ok (), { r.2 with rooms := insertRoom r.2.rooms ⟨x, y, w, h⟩ })

/-- Result of the room loop of one `GenerateDungeon` attempt. -/
inductive GDLoopRes where
  | hardTimeout (d : Dungeon) (s : Streams)
  | retryTimeout (d : Dungeon) (s : Streams)
  | done (d : Dungeon) (s : Streams)
deriving Repr

/-- The room loop of one `GenerateDungeon` attempt
(`for rc := roomCount - 1; rc > 0; rc--`): pick the next room size, a
direction, and a corridor; on a `placeRoom` failure roll back to a random
previously placed room (`rc++; continue`). -/
def gdLoop :
    Nat → Int → Int → Int → Int → Int → List Rect → Dungeon → Streams →
    Option GDLoopRes
  | 0, _, _, _, _, _, _, _, _ => none
  | Nat.succ fuel, rc, sx, sy, rw, rh, prevRooms, d, str =>
    if rc > 0 then
      match popClock str.clock with
      | ((hardT, retryT), clock1) =>
        if hardT then some (GDLoopRes.hardTimeout d ⟨str.rng, clock1⟩)
        else if retryT then some (GDLoopRes.retryTimeout d ⟨str.rng, clock1⟩)
        else
          match randInt d.minRoomWidth d.maxRoomWidth str.rng with
          | (rw1, rngA) =>
            match randInt d.minRoomHeight d.maxRoomHeight rngA with
            | (rh1, rngB) =>
              match randInt d.minDoorSize d.maxDoorSize rngB with
              | (cs, rngC) =>
                match (if d.allowRandomCorridorOffset then
                    randInt (Int.tdiv (-cs) 2)
                      (Int.tdiv (minInt rh1 rh - 0) 2 - Int.tdiv cs 2) rngC
                  else (0, rngC)) with
                | (offsetCy, rngD) =>
                  match (if d.allowRandomCorridorOffset then
                      randInt (Int.tdiv (-cs) 2)
                        (Int.tdiv (minInt rw1 rw - 0) 2 - Int.tdiv cs 2) rngD
                    else (0, rngD)) with
                  | (offsetCx, rngE) =>
                    match popRng rngE with
                    | (dir, rng1) =>
                      match (match dir % 4 with
                        | 0 =>
                          (d.wallThickness, cs, sx - d.wallThickness - rw1, sy,
                            sx - d.wallThickness - rw1 + rw1,
                            sy + Int.tdiv cs 2 + offsetCy, DoorDirection.vertical)
                        | 1 =>
                          (d.wallThickness, cs, sx + rw + d.wallThickness, sy,
                            sx + rw + d.wallThickness - d.wallThickness,
                            sy + Int.tdiv cs 2 + offsetCy, DoorDirection.vertical)
                        | 2 =>
                          (cs, d.wallThickness, sx, sy - d.wallThickness - rh1,
                            sx + Int.tdiv cs 2 + offsetCx,
                            sy - d.wallThickness - rh1 + rh1, DoorDirection.horizontal)
                        | _ =>
                          (cs, d.wallThickness, sx, sy + rh + d.wallThickness,
                            sx + Int.tdiv cs 2 + offsetCx,
                            sy + rh + d.wallThickness - d.wallThickness,
                            DoorDirection.horizontal) :
                        Int × Int × Int × Int × Int × Int × DoorDirection) with
                      | (cw, ch, sx1, sy1, cx, cy, cd) =>
                        match placeRoom d sx1 sy1 rw1 rh1 with
                        | (Except.error _, dFail) =>
                          match popRng rng1 with
                          | (pick, rng2) =>
                            match prevRooms.getD (pick % prevRooms.length) ⟨0, 0, 0, 0⟩ with
                            | c =>
                              gdLoop fuel rc c.x c.y c.w c.h prevRooms dFail ⟨rng2, clock1⟩
                        | (Except.ok _, dOk) =>
                          match (if d.wallThickness > 1 then
                              match cd with
                              | DoorDirection.horizontal =>
                                (⟨cx, cy + (Int.tdiv d.wallThickness 2 +
                                  Int.tmod d.wallThickness 2) - 1, cw, 1⟩ : Rect)
                              | DoorDirection.vertical =>
                                (⟨cx + (Int.tdiv d.wallThickness 2 +
                                  Int.tmod d.wallThickness 2) - 1, cy, 1, ch⟩ : Rect)
                            else (⟨cx, cy, cw, ch⟩ : Rect)) with
                          | door1 =>
                            match { dOk with
                                doors := insertDoor dOk.doors door1 cd } with
                            | d1 =>
                              match (intRange cx (cx + cw)).foldl (fun a x =>
                                  (intRange cy (cy + ch)).foldl (fun a2 y =>
                                    (SetTile a2 x y DungeonTile.floor).2) a) d1 with
                              | d2 =>
                                gdLoop fuel (rc - 1) sx1 sy1 rw1 rh1
                                  (prevRooms ++ [⟨sx1, sy1, rw1, rh1⟩]) d2 ⟨rng1, clock1⟩
    else some (GDLoopRes.done d str)

/-- One attempt (`g`) of `GenerateDungeon` with its retry recursion: reset,
place a centered first room (error ignored), then run the room loop. -/
def GenerateDungeonAux (roomCount : Int) :
    Nat → Dungeon → Streams → Option (Except GenError Unit × Dungeon × Streams)
  | 0, _, _ => none
  | Nat.succ fuel, d, str =>
    let d0 := ResetDungeon d d.width d.height
    let sx := Int.tdiv d.width 2
    let sy := Int.tdiv d.height 2
    let rwr := randInt d.minRoomWidth d.maxRoomWidth str.rng
    let rhr := randInt d.minRoomHeight d.maxRoomHeight rwr.2
    let d1 := (placeRoom d0 sx sy rwr.1 rhr.1).2
    match gdLoop (Nat.succ fuel) (roomCount - 1) sx sy rwr.1 rhr.1
        [⟨sx, sy, rwr.1, rhr.1⟩] d1 ⟨rhr.2, str.clock⟩ with
    | none => none
    | some (GDLoopRes.hardTimeout d' s') =>
      some (Except.error GenError.generationTimeout, d', s')
    | some (GDLoopRes.retryTimeout _ s') => GenerateDungeonAux roomCount fuel d s'
    | some (GDLoopRes.done d' s') => some (Except.ok (), d', s')

/-- `GenerateDungeon` from generate.go: the capacity pre-check
`roomCount > (mw-2)*(mh-2)` (both `mw` and `mh` divide by `MaxRoomWidth`)
followed by the attempt recursion. -/
def GenerateDungeon (d : Dungeon) (roomCount : Int) (str : Streams) (fuel : Nat) :
    Option (Except GenError Unit × Dungeon × Streams) :=
  let s := d.maxRoomWidth
  let mw := Int.tdiv (d.width - d.border * 2) s
  let mh := Int.tdiv (d.height - d.border * 2) s
  if roomCount > (mw - 2) * (mh - 2) then
    some (Except.error GenError.notEnoughSpace, d, str)
  else GenerateDungeonAux roomCount fuel d str

/-- Every `Floor` cell of `tiles` lies inside the band
`[b, w-b) × [b, h-b)`. -/
def FloorInBandP (w h b : Int) (tiles : List (List DungeonTile)) : Prop :=
  ∀ x y : Int, getRaw tiles x y = DungeonTile.floor → ¬outsideBand w h b x y

/-- Every `Floor` cell of the dungeon lies inside its own band. -/
def FloorInBand (d : Dungeon) : Prop :=
  FloorInBandP d.width d.height d.border d.tiles

/-- The dungeon's geometry fields are `(w, h, b)` and every `Floor` cell
lies inside the corresponding band. -/
def GeomInv (w h b : Int) (d : Dungeon) : Prop :=
  d.width = w ∧ d.height = h ∧ d.border = b ∧ FloorInBandP w h b d.tiles

/-- The mutating operations of the generator's public surface: tile
writes, resets, the three generation strategies and the three
post-processing passes. -/
inductive DungeonOp where
  | setOp (x y : Int) (t : DungeonTile)
  | resetOp
  | addWallsOp
  | cleanWallsOp (k : Int)
  | cleanIslandsOp
  | randomWalkOp (tileCount : Int) (s : Streams) (fuel : Nat)
  | dungeonGridOp (roomCount : Int) (s : Streams) (fuel : Nat)
  | dungeonOp (roomCount : Int) (s : Streams) (fuel : Nat)

/-- Apply one operation to the dungeon (a generation run that runs out of
fuel corresponds to no terminating execution and leaves the dungeon as
is). -/
def applyOp (d : Dungeon) : DungeonOp → Dungeon
  | DungeonOp.setOp x y t => (SetTile d x y t).2
  | DungeonOp.resetOp => ResetDungeon d d.width d.height
  | DungeonOp.addWallsOp => AddWalls d
  | DungeonOp.cleanWallsOp k => CleanWalls d k
  | DungeonOp.cleanIslandsOp => CleanIslands d
  | DungeonOp.randomWalkOp tc s fuel =>
    match GenerateRandomWalkAux tc fuel d s with
    | some r => r.2.1
    | none => d
  | DungeonOp.dungeonGridOp rc s fuel =>
    match GenerateDungeonGridAux rc fuel d s with
    | some r => r.2.1
    | none => d
  | DungeonOp.dungeonOp rc s fuel =>
    match GenerateDungeon d rc s fuel with
    | some r => r.2.1
    | none => d

/-- Apply a sequence of operations in order. -/
def applyOps (d : Dungeon) : List DungeonOp → Dungeon
  | [] => d
  | op :: rest => applyOps (applyOp d op) rest

/-- The specification's reading of the convexity pattern: the midline of
the bounding box holds a `Floor` cell, later a `Void` cell, and later
again a `Floor` cell (all as seen through `GetTile`). -/
def midlineFloorGapFloor (d : Dungeon) (minX maxX minY maxY : Int) : Prop :=
  ∃ i j k : Int,
    minX ≤ i ∧ i < j ∧ j < k ∧ k < maxX ∧
    GetTile d i (minY + Int.tdiv (maxY - minY) 2) = Except.ok DungeonTile.floor ∧
    GetTile d j (minY + Int.tdiv (maxY - minY) 2) = Except.ok DungeonTile.void ∧
    GetTile d k (minY + Int.tdiv (maxY - minY) 2) = Except.ok DungeonTile.floor

instance : DecidableEq (Except GenError DungeonTile) := fun a b =>
  match a, b with
  | Except.error e1, Except.error e2 =>
    if h : e1 = e2 then isTrue (by rw [h]) else
      isFalse (fun hc => h (Except.error.inj hc))
  | Except.error _, Except.ok _ => isFalse (fun hc => Except.noConfusion hc)
  | Except.ok _, Except.error _ => isFalse (fun hc => Except.noConfusion hc)
  | Except.ok v1, Except.ok v2 =>
    if h : v1 = v2 then isTrue (by rw [h]) else
      isFalse (fun hc => h (Except.ok.inj hc))

/-- A midline cell of the convexity scan reading as tile `t`. -/
def cellIs (d : Dungeon) (cy x : Int) (t : DungeonTile) : Prop :=
  GetTile d x cy = Except.ok t

instance (d : Dungeon) (cy x : Int) (t : DungeonTile) : Decidable (cellIs d cy x t) := by
  unfold cellIs
  infer_instance

/-- Some position of `l` reads `Floor` on row `cy`. -/
def scanF (d : Dungeon) (cy : Int) (l : List Int) : Prop :=
  ∃ k ∈ l, cellIs d cy k DungeonTile.floor

/-- Some `Void` position of `l` is followed by a `Floor` position. -/
def scanVF (d : Dungeon) (cy : Int) (l : List Int) : Prop :=
  ∃ j ∈ l, ∃ k ∈ l, j < k ∧ cellIs d cy j DungeonTile.void ∧
    cellIs d cy k DungeonTile.floor

/-- Some `Floor` position of `l` is followed by a `Void` position and
then again by a `Floor` position: the specification's
floor-gap-floor pattern. -/
def scanFVF (d : Dungeon) (cy : Int) (l : List Int) : Prop :=
  ∃ i ∈ l, ∃ j ∈ l, ∃ k ∈ l, i < j ∧ j < k ∧
    cellIs d cy i DungeonTile.floor ∧ cellIs d cy j DungeonTile.void ∧
    cellIs d cy k DungeonTile.floor

/-- Tile alias `V` from generate.go. -/
def V : DungeonTile := DungeonTile.void

/-- Tile alias `W` from generate.go. -/
def W : DungeonTile := DungeonTile.wall

/-- Tile alias `P` from generate.go. -/
def P : DungeonTile := DungeonTile.preWall

/-- Tile alias `F` from generate.go. -/
def F : DungeonTile := DungeonTile.floor

/-- A concrete 7×7 dungeon whose row y = 2 reads floor, void, floor at
x = 3, 4, 5. -/
def gapD : Dungeon :=
  { width := 7, height := 7
    tiles := [
      [V, V, V, V, V, V, V],
      [V, V, V, V, V, V, V],
      [V, V, V, F, V, F, V],
      [V, V, V, V, V, V, V],
      [V, V, V, V, V, V, V],
      [V, V, V, V, V, V, V],
      [V, V, V, V, V, V, V]]
    rooms := []
    doors := []
    border := 1
    wallThickness := 1
    minDoorSize := 1
    maxDoorSize := 1
    allowRandomCorridorOffset := false
    maxRoomWidth := 8
    maxRoomHeight := 8
    minRoomWidth := 4
    minRoomHeight := 4
    minIslandSize := 0 }

/-- A concrete walker state that has met its tile budget (tc = 0 with
tileCount 0) and is about to run the convexity check over the bounding
box x ∈ [3,6), y = 2 of `gapD`. -/
def gapSt : RWState :=
  ⟨gapD, 4, 2, 1, 0, 0, 3, 6, 2, 2, ⟨[], []⟩⟩

/-- A cell visible through `GetTile` holding `checkType`: the cells the
flood fill of `countIslandPolar` travels through. -/
def okCell (d : Dungeon) (ct : DungeonTile) (p : Int × Int) : Prop :=
  tileIs d p.1 p.2 ct = true

instance (d : Dungeon) (ct : DungeonTile) (p : Int × Int) :
    Decidable (okCell d ct p) := by
  unfold okCell; infer_instance

/-- 4-adjacency of cells, in the exploration order of the flood fill. -/
def adjacent (p q : Int × Int) : Prop :=
  q = (p.1 + 1, p.2) ∨ q = (p.1 - 1, p.2) ∨ q = (p.1, p.2 + 1) ∨ q = (p.1, p.2 - 1)

/-- `q` is connected to `p` through cells matching `ct` (the island of
`p`). -/
def Reach (d : Dungeon) (ct : DungeonTile) (p q : Int × Int) : Prop :=
  okCell d ct p ∧
    Relation.ReflTransGen (fun a b => adjacent a b ∧ okCell d ct b) p q

/-- The flood-fill visited key of a cell. -/
def keyOf (p : Int × Int) : Rect := ⟨p.1, p.2, 0, 0⟩

/-- All cells the flood fill can ever visit for `ct`, as a list. -/
def okList (d : Dungeon) (ct : DungeonTile) : List (Int × Int) :=
  ((intRange d.border (d.width - d.border)).flatMap (fun x =>
    (intRange d.border (d.height - d.border)).map (fun y => (x, y)))).filter
    (fun p => decide (okCell d ct p))

/-- A concrete 7×7 dungeon with border 1: a two-cell wall column at
x = 1 sitting on a single floor cell, used to exercise the cleaning
passes. -/
def wallColumnD : Dungeon :=
  { width := 7, height := 7
    tiles := [
      [V, V, V, V, V, V, V],
      [V, W, V, V, V, V, V],
      [V, W, V, V, V, V, V],
      [V, F, V, V, V, V, V],
      [V, V, V, V, V, V, V],
      [V, V, V, V, V, V, V],
      [V, V, V, V, V, V, V]]
    rooms := []
    doors := []
    border := 1
    wallThickness := 1
    minDoorSize := 1
    maxDoorSize := 1
    allowRandomCorridorOffset := false
    maxRoomWidth := 8
    maxRoomHeight := 8
    minRoomWidth := 4
    minRoomHeight := 4
    minIslandSize := 0 }

/-- The tile array has exactly `h` rows of `w` cells each. -/
def TilesDims (w h : Int) (tiles : List (List DungeonTile)) : Prop :=
  tiles.length = h.toNat ∧ ∀ row ∈ tiles, row.length = w.toNat

instance (w h : Int) (tiles : List (List DungeonTile)) :
    Decidable (TilesDims w h tiles) := by
  unfold TilesDims
  infer_instance

/-- State invariant of the `AddWalls` scan: geometry `(w, h)`, border
temporarily 0, and well-formed tile dimensions. -/
def AWInv (w h : Int) (d2 : Dungeon) : Prop :=
  d2.width = w ∧ d2.height = h ∧ d2.border = 0 ∧ TilesDims w h d2.tiles

/-- A concrete 5×4 dungeon holding a floor cell, `PreWall` cells around
it (as organic placement leaves them), and a wall. -/
def preWallD : Dungeon :=
  { width := 5, height := 4
    tiles := [
      [V, P, P, P, V],
      [V, P, F, P, V],
      [V, P, P, P, W],
      [V, V, V, V, V]]
    rooms := []
    doors := []
    border := 1
    wallThickness := 1
    minDoorSize := 1
    maxDoorSize := 1
    allowRandomCorridorOffset := false
    maxRoomWidth := 8
    maxRoomHeight := 8
    minRoomWidth := 4
    minRoomHeight := 4
    minIslandSize := 0 }

/-- A concrete 4×4 dungeon with border 1 and no floor cells at all. -/
def bareD : Dungeon :=
  { width := 4, height := 4
    tiles := [
      [V, V, V, V],
      [V, W, W, V],
      [V, W, V, V],
      [V, V, V, V]]
    rooms := []
    doors := []
    border := 1
    wallThickness := 1
    minDoorSize := 1
    maxDoorSize := 1
    allowRandomCorridorOffset := false
    maxRoomWidth := 8
    maxRoomHeight := 8
    minRoomWidth := 4
    minRoomHeight := 4
    minIslandSize := 0 }

/-- A concrete walker state over `bareD` (no floor at all, so in
particular no floor-gap-floor midline) that has met its tile budget and
is about to run the convexity check over x ∈ [1,3), y ∈ [1,3). -/
def bareSt : RWState :=
  ⟨bareD, 2, 2, 1, 0, 0, 1, 3, 1, 3, ⟨[], []⟩⟩

/-- A 20×20 configuration with `MaxRoomHeight` larger than the grid
(so the specification's capacity formula evaluates to 0) but on which
`GenerateDungeon` proceeds and succeeds. -/
def cex5D : Dungeon :=
  { width := 20, height := 20
    tiles := []
    rooms := []
    doors := []
    border := 0
    wallThickness := 1
    minDoorSize := 1
    maxDoorSize := 1
    allowRandomCorridorOffset := false
    maxRoomWidth := 4
    maxRoomHeight := 25
    minRoomWidth := 4
    minRoomHeight := 4
    minIslandSize := 0 }

/-- Scenario B's configuration: 80×80, border 2, `MaxRoomWidth` 8,
`WallThickness` 2. -/
def cex3D : Dungeon :=
  { width := 80, height := 80
    tiles := []
    rooms := []
    doors := []
    border := 2
    wallThickness := 2
    minDoorSize := 1
    maxDoorSize := 1
    allowRandomCorridorOffset := false
    maxRoomWidth := 8
    maxRoomHeight := 8
    minRoomWidth := 4
    minRoomHeight := 4
    minIslandSize := 0 }

/-- The result of `GenerateDungeonGrid(10)` on `cex3D` with a random
stream that makes the coarse walker oscillate between two cells: every
step is accepted (the cell re-acceptance guard needs `countAdj ≥ 2`),
so the walk finishes its 10 accepted steps on 2 distinct cells. -/
def c3res : Except GenError Unit × Dungeon × Streams :=
  (GenerateDungeonGridAux 10 12 cex3D ⟨[1, 0, 1, 0, 1, 0, 1, 0, 1, 0], []⟩).getD
    (Except.error GenError.outOfBounds, cex3D, ⟨[], []⟩)

/-- The fixed-size room rect that the fill phase of `GenerateDungeonGrid`
assigns to the coarse cell `cur`. -/
def dgRoomRect (wt mrw s : Int) (cur : Rect) : Rect :=
  ⟨cur.x * s + cur.x * wt - mrw, cur.y * s + cur.y * wt - mrw, mrw, mrw⟩

/-- Number of flood-fillable cells not yet visited: the termination (and
fuel-sufficiency) measure of `floodAux`. -/
def missCount (d : Dungeon) (ct : DungeonTile) (m : List Rect) : Nat :=
  ((okList d ct).filter (fun p => decide (keyOf p ∉ m))).length

/-- The island-removal loop of `CleanIslands`
(`for co := range m { dungeon.SetTile(co.X, co.Y, DungeonTileFloor) }`). -/
def removeIsland (m : List Rect) (a : Dungeon) : Dungeon :=
  m.foldl (fun a2 co => (SetTile a2 co.x co.y DungeonTile.floor).2) a

/-- A cell that, whenever it is a band-visible `Void` cell, belongs to an
island of size at least `MinIslandSize` of the current grid. -/
def BigAt (a : Dungeon) (x y : Int) : Prop :=
  okCell a DungeonTile.void (x, y) →
    a.minIslandSize ≤ (countIslandPolar a x y DungeonTile.void).1

/-- Invariant of the `CleanIslands` scan state: the geometry, the
threshold and the tile-array dimensions are those of the input, and every
cell recorded in the islands list that is still void belongs to an island
of size at least `MinIslandSize`. -/
def IslQ (d : Dungeon) (st : Dungeon × List (List Rect)) : Prop :=
  st.1.width = d.width ∧ st.1.height = d.height ∧ st.1.border = d.border ∧
    st.1.minIslandSize = d.minIslandSize ∧
    TilesDims d.width d.height st.1.tiles ∧
    ∀ i ∈ st.2, ∀ c ∈ i, BigAt st.1 c.x c.y

theorem foldlPreserve {α : Type _} {β : Type _} (P : α → Prop) (f : α → β → α) :
    ∀ (l : List β) (a : α), (∀ a' b, b ∈ l → P a' → P (f a' b)) → P a → P (l.foldl f a)
  | [], _, _, ha => ha
  | b :: l, a, h, ha =>
    foldlPreserve P f l (f a b)
      (fun a' b' hb' => h a' b' (List.mem_cons_of_mem _ hb'))
      (h a b (List.mem_cons_self _ _) ha)

theorem foldlProcessed {α : Type _} {γ : Type _} (Q : α → Prop) (P : α → γ → Prop)
    (f : α → γ → α)
    (hQ : ∀ a c, Q a → Q (f a c))
    (est : ∀ a c, Q a → P (f a c) c)
    (mono : ∀ a c c', Q a → P a c → P (f a c') c) :
    ∀ (l : List γ) (a : α), Q a → ∀ c ∈ l, P (l.foldl f a) c := by
  intro l
  induction l with
  | nil => intro a _ c hc; cases hc
  | cons b l ih =>
    intro a hQa c hc
    rcases List.mem_cons.mp hc with rfl | hmem
    · have h1 : P (f a c) c := est a c hQa
      have h2 : Q (f a c) := hQ a c hQa
      simpa using foldlPreserve (fun a' => Q a' ∧ P a' c) f l (f a c)
        (fun a' b' _ hp => ⟨hQ a' b' hp.1, mono a' c b' hp.1 hp.2⟩) ⟨h2, h1⟩ |>.2
    · exact ih (f a b) (hQ a b hQa) c hmem

theorem mem_intRange {lo hi x : Int} : x ∈ intRange lo hi ↔ lo ≤ x ∧ x < hi := by
  unfold intRange
  rw [List.mem_map]
  constructor
  · rintro ⟨i, hi', rfl⟩
    rw [List.mem_range] at hi'
    omega
  · rintro ⟨h1, h2⟩
    exact ⟨(x - lo).toNat, List.mem_range.mpr (by omega), by omega⟩

theorem length_intRange (lo hi : Int) : (intRange lo hi).length = (hi - lo).toNat := by
  unfold intRange
  rw [List.length_map, List.length_range]

theorem length_setRaw (tiles : List (List DungeonTile)) (x y : Int) (t : DungeonTile) :
    (setRaw tiles x y t).length = tiles.length := by
  unfold setRaw
  split
  · rfl
  · exact List.length_set ..

theorem rows_setRaw (tiles : List (List DungeonTile)) (x y : Int) (t : DungeonTile)
    (L : Nat) (h : ∀ row ∈ tiles, row.length = L) :
    ∀ row ∈ setRaw tiles x y t, row.length = L := by
  unfold setRaw
  split
  · exact h
  · intro row hrow
    by_cases hy : y.toNat < tiles.length
    · rcases List.mem_or_eq_of_mem_set hrow with h1 | h2
      · exact h row h1
      · subst h2
        rw [List.length_set, List.getD_eq_getElem _ _ hy]
        exact h _ (List.getElem_mem hy)
    · rw [List.set_eq_of_length_le (by omega)] at hrow
      exact h row hrow

theorem getRaw_setRaw_ne (tiles : List (List DungeonTile)) (x y x' y' : Int)
    (t : DungeonTile) (hne : x' ≠ x ∨ y' ≠ y) :
    getRaw (setRaw tiles x y t) x' y' = getRaw tiles x' y' := by
  unfold setRaw getRaw
  split
  · rfl
  · rename_i hxy
    split
    · rfl
    · rename_i hxy'
      simp only [List.getD_eq_getElem?_getD]
      by_cases hyy : y'.toNat = y.toNat
      · have hxx : x.toNat ≠ x'.toNat := by omega
        by_cases hlen : y.toNat < tiles.length
        · rw [hyy, List.getElem?_set_self hlen, Option.getD_some,
            List.getElem?_set_ne hxx]
        · rw [List.set_eq_of_length_le (by omega)]
      · rw [List.getElem?_set_ne (by omega)]

theorem getRaw_setRaw_self_or (tiles : List (List DungeonTile)) (x y : Int)
    (t : DungeonTile) :
    getRaw (setRaw tiles x y t) x y = t ∨
      getRaw (setRaw tiles x y t) x y = getRaw tiles x y := by
  unfold setRaw getRaw
  split
  · exact Or.inr rfl
  · rename_i hxy
    by_cases hy : y.toNat < tiles.length
    · have hset : y.toNat < (tiles.set y.toNat ((tiles.getD y.toNat []).set x.toNat t)).length := by
        rw [List.length_set]; exact hy
      rw [List.getD_eq_getElem _ _ hset, List.getElem_set_self hset]
      by_cases hx : x.toNat < (tiles.getD y.toNat []).length
      · left
        have hset2 : x.toNat < ((tiles.getD y.toNat []).set x.toNat t).length := by
          rw [List.length_set]; exact hx
        rw [List.getD_eq_getElem _ _ hset2, List.getElem_set_self hset2]
      · right
        rw [List.set_eq_of_length_le (by omega), List.getD_eq_getElem _ _ hy]
    · rw [List.set_eq_of_length_le (by omega)]
      exact Or.inr rfl

theorem getRaw_setRaw_self (tiles : List (List DungeonTile)) (x y : Int)
    (t : DungeonTile) (hx0 : 0 ≤ x) (hy0 : 0 ≤ y)
    (hy : y.toNat < tiles.length) (hx : x.toNat < (tiles.getD y.toNat []).length) :
    getRaw (setRaw tiles x y t) x y = t := by
  unfold setRaw getRaw
  rw [if_neg (by omega), if_neg (by omega)]
  have hset : y.toNat < (tiles.set y.toNat ((tiles.getD y.toNat []).set x.toNat t)).length := by
    rw [List.length_set]; exact hy
  have hset2 : x.toNat < ((tiles.getD y.toNat []).set x.toNat t).length := by
    rw [List.length_set]; exact hx
  rw [List.getD_eq_getElem _ _ hset, List.getElem_set_self hset,
    List.getD_eq_getElem _ _ hset2, List.getElem_set_self hset2]

theorem SetTile_snd (d : Dungeon) (x y : Int) (t : DungeonTile) :
    (SetTile d x y t).2 = { d with tiles := (SetTile d x y t).2.tiles } := by
  unfold SetTile
  split <;> rfl

theorem SetTile_tiles_or (d : Dungeon) (x y : Int) (t : DungeonTile) :
    (SetTile d x y t).2.tiles = d.tiles ∨
      (SetTile d x y t).2.tiles = setRaw d.tiles x y t := by
  unfold SetTile
  split
  · exact Or.inl rfl
  · exact Or.inr rfl

theorem tileIs_true {d : Dungeon} {x y : Int} {ct : DungeonTile}
    (h : tileIs d x y ct = true) :
    ¬outsideBand d.width d.height d.border x y ∧ getRaw d.tiles x y = ct := by
  unfold tileIs GetTile at h
  by_cases hb : outsideBand d.width d.height d.border x y
  · rw [if_pos hb] at h
    cases h
  · rw [if_neg hb] at h
    exact ⟨hb, by simpa using h⟩

theorem setTile_floor_frame {d : Dungeon} {x y x' y' : Int}
    (h : outsideBand d.width d.height d.border x' y') :
    getRaw ((SetTile d x y DungeonTile.floor).2).tiles x' y' = getRaw d.tiles x' y' := by
  unfold SetTile
  by_cases hb : outsideBand d.width d.height d.border x y
  · rw [if_pos ⟨rfl, hb⟩]
  · rw [if_neg (by simp [hb])]
    refine getRaw_setRaw_ne _ _ _ _ _ _ ?_
    unfold outsideBand at h hb
    by_contra hc
    push_neg at hc
    omega

theorem getRaw_replicate (w h : Nat) (x y : Int) :
    getRaw (List.replicate h (List.replicate w DungeonTile.void)) x y =
      DungeonTile.void := by
  unfold getRaw
  split
  · rfl
  · have hrow : (List.replicate h (List.replicate w DungeonTile.void)).getD y.toNat [] =
        List.replicate w DungeonTile.void ∨
        (List.replicate h (List.replicate w DungeonTile.void)).getD y.toNat [] = [] := by
      rcases Nat.lt_or_ge y.toNat h with hy | hy
      · left
        rw [List.getD_eq_getElem _ _ (by simpa using hy)]
        exact List.getElem_replicate ..
      · right
        rw [List.getD_eq_getElem?_getD, List.getElem?_eq_none (by simpa using hy)]
        rfl
    rcases hrow with hr | hr <;> rw [hr]
    · rcases Nat.lt_or_ge x.toNat w with hx | hx
      · rw [List.getD_eq_getElem _ _ (by simpa using hx)]
        exact List.getElem_replicate ..
      · rw [List.getD_eq_getElem?_getD, List.getElem?_eq_none (by simpa using hx)]
        rfl
    · rfl

theorem cleanWalls_frameGeom (d : Dungeon) (k : Int) (x' y' : Int) :
    (CleanWalls d k).width = d.width ∧ (CleanWalls d k).height = d.height ∧
      (CleanWalls d k).border = d.border ∧
      (getRaw (CleanWalls d k).tiles x' y' = getRaw d.tiles x' y' ∨
        (getRaw d.tiles x' y' = DungeonTile.wall ∧
          ¬outsideBand d.width d.height d.border x' y' ∧
          getRaw (CleanWalls d k).tiles x' y' = DungeonTile.floor)) := by
  unfold CleanWalls
  have main := foldlPreserve (fun a =>
    a.width = d.width ∧ a.height = d.height ∧ a.border = d.border ∧
      (getRaw a.tiles x' y' = getRaw d.tiles x' y' ∨
        (getRaw d.tiles x' y' = DungeonTile.wall ∧
          ¬outsideBand d.width d.height d.border x' y' ∧
          getRaw a.tiles x' y' = DungeonTile.floor)))
    (fun a y => (intRange 0 d.width).foldl (fun a2 x =>
      if tileIs a2 x y DungeonTile.wall ∧
          countSurrounding a2 x y DungeonTile.floor ≥ k then
        (SetTile a2 x y DungeonTile.floor).2
      else a2) a)
    (intRange 0 d.height) d ?_ ⟨rfl, rfl, rfl, Or.inl rfl⟩
  · exact main
  · intro a yy _ ha
    refine foldlPreserve (fun a => a.width = d.width ∧ a.height = d.height ∧
      a.border = d.border ∧
      (getRaw a.tiles x' y' = getRaw d.tiles x' y' ∨
        (getRaw d.tiles x' y' = DungeonTile.wall ∧
          ¬outsideBand d.width d.height d.border x' y' ∧
          getRaw a.tiles x' y' = DungeonTile.floor)))
      _ (intRange 0 d.width) a ?_ ha
    intro a2 xx _ ha2
    split
    · rename_i hcond
      obtain ⟨hw, hh, hb, hcell⟩ := ha2
      have hin := tileIs_true hcond.1
      refine ⟨?_, ?_, ?_, ?_⟩
      · rw [SetTile_snd]; exact hw
      · rw [SetTile_snd]; exact hh
      · rw [SetTile_snd]; exact hb
      · by_cases hsame : x' = xx ∧ y' = yy
        · rw [hsame.1, hsame.2] at hcell ⊢
          have hwall : getRaw d.tiles xx yy = DungeonTile.wall := by
            rcases hcell with hc | hc
            · rw [← hc]; exact hin.2
            · exact hc.1
          have hband : ¬outsideBand d.width d.height d.border xx yy := by
            rw [← hw, ← hh, ← hb]; exact hin.1
          rcases SetTile_tiles_or a2 xx yy DungeonTile.floor with ht | ht
          · rw [ht]
            rcases hcell with hc | hc
            · exact Or.inl hc
            · exact Or.inr ⟨hwall, hband, hc.2.2⟩
          · rw [ht]
            rcases getRaw_setRaw_self_or a2.tiles xx yy DungeonTile.floor with hr | hr
            · exact Or.inr ⟨hwall, hband, hr⟩
            · rw [hr]
              exact hcell
        · have hne : x' ≠ xx ∨ y' ≠ yy := by tauto
          rcases SetTile_tiles_or a2 xx yy DungeonTile.floor with ht | ht
          · rw [ht]; exact hcell
          · rw [ht, getRaw_setRaw_ne _ _ _ _ _ _ hne]
            exact hcell
    · exact ha2

theorem setTile_floor_cell (a : Dungeon) (x y x' y' : Int) :
    getRaw ((SetTile a x y DungeonTile.floor).2).tiles x' y' = getRaw a.tiles x' y' ∨
      (¬outsideBand a.width a.height a.border x' y' ∧
        getRaw ((SetTile a x y DungeonTile.floor).2).tiles x' y' = DungeonTile.floor) := by
  by_cases hb : outsideBand a.width a.height a.border x y
  · left
    unfold SetTile
    rw [if_pos ⟨rfl, hb⟩]
  · have ht : (SetTile a x y DungeonTile.floor).2.tiles = setRaw a.tiles x y DungeonTile.floor := by
      unfold SetTile
      rw [if_neg (by simp [hb])]
    by_cases hsame : x' = x ∧ y' = y
    · rw [ht, hsame.1, hsame.2]
      rcases getRaw_setRaw_self_or a.tiles x y DungeonTile.floor with hr | hr
      · right
        exact ⟨hb, hr⟩
      · left
        exact hr
    · left
      rw [ht, getRaw_setRaw_ne _ _ _ _ _ _ (by tauto)]

theorem cleanIslands_frameGeom (d : Dungeon) (x' y' : Int) :
    (CleanIslands d).width = d.width ∧ (CleanIslands d).height = d.height ∧
      (CleanIslands d).border = d.border ∧
      (getRaw (CleanIslands d).tiles x' y' = getRaw d.tiles x' y' ∨
        (¬outsideBand d.width d.height d.border x' y' ∧
          getRaw (CleanIslands d).tiles x' y' = DungeonTile.floor)) := by
  unfold CleanIslands
  have main := foldlPreserve (fun (st : Dungeon × List (List Rect)) =>
      st.1.width = d.width ∧ st.1.height = d.height ∧ st.1.border = d.border ∧
      (getRaw st.1.tiles x' y' = getRaw d.tiles x' y' ∨
        (¬outsideBand d.width d.height d.border x' y' ∧
          getRaw st.1.tiles x' y' = DungeonTile.floor)))
    (fun st x => (intRange 0 d.height).foldl (fun st2 y => cleanIslandsStep st2 x y) st)
    (intRange 0 d.width) (d, []) ?_ ⟨rfl, rfl, rfl, Or.inl rfl⟩
  · exact main
  · intro st xx _ hst
    refine foldlPreserve (fun (st : Dungeon × List (List Rect)) =>
      st.1.width = d.width ∧ st.1.height = d.height ∧ st.1.border = d.border ∧
      (getRaw st.1.tiles x' y' = getRaw d.tiles x' y' ∨
        (¬outsideBand d.width d.height d.border x' y' ∧
          getRaw st.1.tiles x' y' = DungeonTile.floor)))
      _ (intRange 0 d.height) st ?_ hst
    intro st2 yy _ hst2
    simp only [cleanIslandsStep]
    split
    · exact hst2
    · obtain ⟨hw, hh, hb, hcell⟩ := hst2
      split
      · refine foldlPreserve (fun (a : Dungeon) =>
            a.width = d.width ∧ a.height = d.height ∧ a.border = d.border ∧
            (getRaw a.tiles x' y' = getRaw d.tiles x' y' ∨
              (¬outsideBand d.width d.height d.border x' y' ∧
                getRaw a.tiles x' y' = DungeonTile.floor)))
          _ _ st2.1 ?_ ⟨hw, hh, hb, hcell⟩
        intro a co _ ha
        obtain ⟨haw, hah, hab, hacell⟩ := ha
        refine ⟨by rw [SetTile_snd]; exact haw, by rw [SetTile_snd]; exact hah,
          by rw [SetTile_snd]; exact hab, ?_⟩
        rcases setTile_floor_cell a co.x co.y x' y' with hc | hc
        · rw [hc]
          exact hacell
        · right
          rw [haw, hah, hab] at hc
          exact ⟨hc.1, hc.2⟩
      · exact ⟨hw, hh, hb, hcell⟩

/-- Claim C10: `CleanWalls` and `CleanIslands` leave every cell of the
border band (`x < Border`, `x ≥ Width-Border`, `y < Border` or
`y ≥ Height-Border`) exactly as it was. -/
theorem claimC10 (d : Dungeon) (k x y : Int)
    (h : x < d.border ∨ x ≥ d.width - d.border ∨ y < d.border ∨ y ≥ d.height - d.border) :
    getRaw (CleanWalls d k).tiles x y = getRaw d.tiles x y ∧
      getRaw (CleanIslands d).tiles x y = getRaw d.tiles x y := by
  have hob : outsideBand d.width d.height d.border x y := by
    unfold outsideBand
    tauto
  constructor
  · rcases (cleanWalls_frameGeom d k x y).2.2.2 with hc | hc
    · exact hc
    · exact absurd hob hc.2.1
  · rcases (cleanIslands_frameGeom d x y).2.2.2 with hc | hc
    · exact hc
    · exact absurd hob hc.1

/-- Claim C10, witness: the band cell (0,0) of the concrete dungeon is
untouched by both passes. -/
theorem claimC10_witness :
    getRaw (CleanWalls wallColumnD 1).tiles 0 0 = getRaw wallColumnD.tiles 0 0 ∧
      getRaw (CleanIslands wallColumnD).tiles 0 0 = getRaw wallColumnD.tiles 0 0 :=
  claimC10 wallColumnD 1 0 0 (by decide)

set_option maxRecDepth 8000 in
/-- Claim C8, counterexample: `CleanWalls 1` is not idempotent — on the
concrete dungeon the first pass converts the wall at (1,2) (its neighbor
(1,3) is floor), which in a second pass converts the wall at (1,1). -/
theorem claimC8_cex :
    (CleanWalls (CleanWalls wallColumnD 1) 1).tiles ≠ (CleanWalls wallColumnD 1).tiles := by
  decide

/-- Claim C8, amended: a `CleanWalls` pass only converts `Wall` cells to
`Floor` (every cell is either unchanged or was `Wall` and is now `Floor`,
the conversion happening inside the band); it is not idempotent. -/
theorem claimC8_amended (d : Dungeon) (k x y : Int) :
    getRaw (CleanWalls d k).tiles x y = getRaw d.tiles x y ∨
      (getRaw d.tiles x y = DungeonTile.wall ∧
        ¬outsideBand d.width d.height d.border x y ∧
        getRaw (CleanWalls d k).tiles x y = DungeonTile.floor) :=
  (cleanWalls_frameGeom d k x y).2.2.2

theorem SetTile_tiles_eq (d : Dungeon) (x y : Int) (t : DungeonTile) :
    (SetTile d x y t).2.tiles =
      if t = DungeonTile.floor ∧ outsideBand d.width d.height d.border x y then d.tiles
      else setRaw d.tiles x y t := by
  unfold SetTile
  split <;> rfl

theorem setTile_keepFloorInv {w h b : Int} {d : Dungeon} (x y : Int) (t : DungeonTile)
    (hgeom : t = DungeonTile.floor → d.width = w ∧ d.height = h ∧ d.border = b)
    (hinv : FloorInBandP w h b d.tiles) :
    FloorInBandP w h b ((SetTile d x y t).2).tiles := by
  intro a c hfloor
  rw [SetTile_tiles_eq] at hfloor
  by_cases hguard : t = DungeonTile.floor ∧ outsideBand d.width d.height d.border x y
  · rw [if_pos hguard] at hfloor
    exact hinv a c hfloor
  · rw [if_neg hguard] at hfloor
    by_cases hsame : a = x ∧ c = y
    · rw [hsame.1, hsame.2] at hfloor
      rcases getRaw_setRaw_self_or d.tiles x y t with hr | hr
      · have htf : t = DungeonTile.floor := by rw [← hr]; exact hfloor
        obtain ⟨hw, hh, hb⟩ := hgeom htf
        have hnb : ¬outsideBand d.width d.height d.border x y := by tauto
        rw [hw, hh, hb] at hnb
        rw [hsame.1, hsame.2]
        exact hnb
      · rw [hr] at hfloor
        rw [hsame.1, hsame.2]
        exact hinv x y hfloor
    · rw [getRaw_setRaw_ne _ _ _ _ _ _ (by tauto)] at hfloor
      exact hinv a c hfloor

theorem setTile_geomInv {w h b : Int} {d : Dungeon} (x y : Int) (t : DungeonTile)
    (hd : GeomInv w h b d) : GeomInv w h b ((SetTile d x y t).2) := by
  obtain ⟨hw, hh, hb, hinv⟩ := hd
  refine ⟨by rw [SetTile_snd]; exact hw, by rw [SetTile_snd]; exact hh,
    by rw [SetTile_snd]; exact hb, ?_⟩
  exact setTile_keepFloorInv x y t (fun _ => ⟨hw, hh, hb⟩) hinv

theorem setTile_nonFloorInv {w h b : Int} {d : Dungeon} (x y : Int) (t : DungeonTile)
    (ht : t ≠ DungeonTile.floor) (hinv : FloorInBandP w h b d.tiles) :
    FloorInBandP w h b ((SetTile d x y t).2).tiles :=
  setTile_keepFloorInv x y t (fun hc => absurd hc ht) hinv

theorem reset_geomInv (d : Dungeon) (a c : Int) :
    GeomInv d.width d.height d.border (ResetDungeon d a c) := by
  refine ⟨rfl, rfl, rfl, ?_⟩
  intro x y hfloor
  rw [show (ResetDungeon d a c).tiles =
    List.replicate c.toNat (List.replicate a.toNat DungeonTile.void) from rfl] at hfloor
  rw [getRaw_replicate] at hfloor
  cases hfloor

theorem cleanWalls_geomInv {w h b : Int} {d : Dungeon} (k : Int)
    (hd : GeomInv w h b d) : GeomInv w h b (CleanWalls d k) := by
  unfold CleanWalls
  refine foldlPreserve (GeomInv w h b) _ (intRange 0 d.height) d ?_ hd
  intro a yy _ ha
  refine foldlPreserve (GeomInv w h b) _ (intRange 0 d.width) a ?_ ha
  intro a2 xx _ ha2
  split
  · exact setTile_geomInv xx yy DungeonTile.floor ha2
  · exact ha2

theorem cleanIslands_geomInv {w h b : Int} {d : Dungeon}
    (hd : GeomInv w h b d) : GeomInv w h b (CleanIslands d) := by
  unfold CleanIslands
  have main := foldlPreserve (fun (st : Dungeon × List (List Rect)) => GeomInv w h b st.1)
    (fun st x => (intRange 0 d.height).foldl (fun st2 y => cleanIslandsStep st2 x y) st)
    (intRange 0 d.width) (d, []) ?_ hd
  · exact main
  · intro st xx _ hst
    refine foldlPreserve (fun (st : Dungeon × List (List Rect)) => GeomInv w h b st.1)
      _ (intRange 0 d.height) st ?_ hst
    intro st2 yy _ hst2
    simp only [cleanIslandsStep]
    split
    · exact hst2
    · split
      · exact foldlPreserve (GeomInv w h b) _ _ st2.1
          (fun a co _ ha => setTile_geomInv co.x co.y DungeonTile.floor ha) hst2
      · exact hst2

theorem addWalls_geomInv {w h b : Int} {d : Dungeon}
    (hd : GeomInv w h b d) : GeomInv w h b (AddWalls d) := by
  obtain ⟨hw, hh, hb, hinv⟩ := hd
  unfold AddWalls
  have main := foldlPreserve (fun (a : Dungeon) =>
      a.width = w ∧ a.height = h ∧ FloorInBandP w h b a.tiles)
    (fun a y => (intRange 0 d.width).foldl
      (fun a2 x => addWallsCell d.wallThickness a2 x y) a)
    (intRange 0 d.height) { d with border := 0 } ?_ ⟨hw, hh, hinv⟩
  · exact ⟨main.1, main.2.1, hb, main.2.2⟩
  · intro a yy _ ha
    refine foldlPreserve (fun (a : Dungeon) =>
        a.width = w ∧ a.height = h ∧ FloorInBandP w h b a.tiles)
      _ (intRange 0 d.width) a ?_ ha
    intro a2 xx _ ha2
    unfold addWallsCell
    split
    · refine foldlPreserve (fun (a : Dungeon) =>
          a.width = w ∧ a.height = h ∧ FloorInBandP w h b a.tiles)
        _ _ a2 ?_ ha2
      intro a3 dx _ ha3
      refine foldlPreserve (fun (a : Dungeon) =>
          a.width = w ∧ a.height = h ∧ FloorInBandP w h b a.tiles)
        _ _ a3 ?_ ha3
      intro a4 dy _ ha4
      split
      · exact ⟨by rw [SetTile_snd]; exact ha4.1, by rw [SetTile_snd]; exact ha4.2.1,
          setTile_nonFloorInv _ _ DungeonTile.wall (by decide) ha4.2.2⟩
      · exact ha4
    · exact ⟨by rw [SetTile_snd]; exact ha2.1, by rw [SetTile_snd]; exact ha2.2.1,
        setTile_nonFloorInv _ _ DungeonTile.wall (by decide) ha2.2.2⟩
    · exact ha2

theorem rwStampGo_inv {w h b : Int} (w0 h0 : Int) (l : List (Int × Int)) :
    ∀ (d : Dungeon) (tc x y : Int), GeomInv w h b d →
      GeomInv w h b (rwStampGo w0 h0 l d tc x y).1 := by
  induction l with
  | nil =>
    intro d tc x y hd
    exact hd
  | cons p rest ih =>
    intro d tc x y hd
    simp only [rwStampGo]
    split
    · exact ih d _ x y hd
    · split
      · exact setTile_geomInv p.1 p.2 DungeonTile.floor hd
      · exact ih _ _ x y (setTile_geomInv p.1 p.2 DungeonTile.floor hd)

theorem rwLoop_inv {w h b : Int} (tileCount : Int) :
    ∀ (fuel : Nat) (st : RWState) (r : RWOutcome) (st' : RWState),
      GeomInv w h b st.d → rwLoop tileCount fuel st = some (r, st') →
      GeomInv w h b st'.d := by
  intro fuel
  induction fuel with
  | zero =>
    intro st r st' _ hrun
    cases hrun
  | succ n ih =>
    intro st r st' hst hrun
    simp only [rwLoop] at hrun
    split at hrun
    · split at hrun
      · rcases Option.some.inj hrun with h2
        rw [(Prod.mk.injEq _ _ _ _).mp h2 |>.2.symm]
        exact hst
      · split at hrun
        · rcases Option.some.inj hrun with h2
          rw [(Prod.mk.injEq _ _ _ _).mp h2 |>.2.symm]
          exact hst
        · split at hrun
          · exact ih _ r st' (rwStampGo_inv _ _ _ _ _ _ _ hst) hrun
          · exact ih _ r st' (rwStampGo_inv _ _ _ _ _ _ _ hst) hrun
    · split at hrun
      · rcases Option.some.inj hrun with h2
        rw [(Prod.mk.injEq _ _ _ _).mp h2 |>.2.symm]
        exact hst
      · rcases Option.some.inj hrun with h2
        rw [(Prod.mk.injEq _ _ _ _).mp h2 |>.2.symm]
        exact hst

theorem rwAux_inv (tileCount : Int) :
    ∀ (fuel : Nat) (d : Dungeon) (s : Streams) (res : Except GenError Unit)
      (d' : Dungeon) (s' : Streams),
      GenerateRandomWalkAux tileCount fuel d s = some (res, d', s') →
      GeomInv d.width d.height d.border d' := by
  intro fuel
  induction fuel with
  | zero =>
    intro d s res d' s' hrun
    cases hrun
  | succ n ih =>
    intro d s res d' s' hrun
    simp only [GenerateRandomWalkAux] at hrun
    split at hrun
    · cases hrun
    all_goals rename_i heq
    · have hst := rwLoop_inv tileCount _ _ _ _ (reset_geomInv d d.width d.height) heq
      rcases Option.some.inj hrun with h2
      rw [← (Prod.mk.injEq _ _ _ _).mp ((Prod.mk.injEq _ _ _ _).mp h2).2 |>.1]
      exact hst
    · have hst := rwLoop_inv tileCount _ _ _ _ (reset_geomInv d d.width d.height) heq
      have hrec := ih _ _ _ _ _ hrun
      rw [hst.1, hst.2.1, hst.2.2.1] at hrec
      exact hrec
    · have hst := rwLoop_inv tileCount _ _ _ _ (reset_geomInv d d.width d.height) heq
      have hrec := ih _ _ _ _ _ hrun
      rw [hst.1, hst.2.1, hst.2.2.1] at hrec
      exact hrec
    · have hst := rwLoop_inv tileCount _ _ _ _ (reset_geomInv d d.width d.height) heq
      rcases Option.some.inj hrun with h2
      rw [← (Prod.mk.injEq _ _ _ _).mp ((Prod.mk.injEq _ _ _ _).mp h2).2 |>.1]
      exact hst

theorem dgPlaceRoom_inv {w h b : Int} {d : Dungeon} (s : Int) (cur : Rect)
    (hd : GeomInv w h b d) : GeomInv w h b (dgPlaceRoom d s cur) := by
  unfold dgPlaceRoom
  refine foldlPreserve (GeomInv w h b) _ _ _ ?_ ⟨hd.1, hd.2.1, hd.2.2.1, hd.2.2.2⟩
  intro a dx _ ha
  refine foldlPreserve (GeomInv w h b) _ _ _ ?_ ha
  intro a2 dy _ ha2
  exact setTile_geomInv dx dy DungeonTile.floor ha2

theorem dgCorridor_inv {w h b : Int} {d : Dungeon} (s : Int) (cur prev : Rect)
    (str : Streams) (hd : GeomInv w h b d) :
    GeomInv w h b (dgCorridor d s cur prev str).1 := by
  unfold dgCorridor
  refine foldlPreserve (GeomInv w h b) _ _ _ ?_ ⟨hd.1, hd.2.1, hd.2.2.1, hd.2.2.2⟩
  intro a x _ ha
  refine foldlPreserve (GeomInv w h b) _ _ _ ?_ ha
  intro a2 y _ ha2
  exact setTile_geomInv _ _ DungeonTile.floor ha2

theorem dgPlaceBranch_inv {w h b : Int} {d : Dungeon} (s : Int) (branch : List Rect)
    (str : Streams) (hd : GeomInv w h b d) :
    GeomInv w h b (dgPlaceBranch d s branch str).1 := by
  have main := foldlPreserve (fun (acc : Dungeon × Streams × Option Rect) =>
      GeomInv w h b acc.1)
    (dgBranchStep s) branch (d, str, none) ?_ hd
  · exact main
  · intro acc cur _ hacc
    rcases acc with ⟨ad, astr, aprev⟩
    cases aprev with
    | none =>
      simp only [dgBranchStep]
      exact dgPlaceRoom_inv s cur hacc
    | some prev =>
      simp only [dgBranchStep]
      exact dgCorridor_inv s cur prev astr (dgPlaceRoom_inv s cur hacc)

theorem dgAux_inv (roomCount : Int) :
    ∀ (fuel : Nat) (d : Dungeon) (s : Streams) (res : Except GenError Unit)
      (d' : Dungeon) (s' : Streams),
      GenerateDungeonGridAux roomCount fuel d s = some (res, d', s') →
      GeomInv d.width d.height d.border d' := by
  intro fuel
  induction fuel with
  | zero =>
    intro d s res d' s' hrun
    cases hrun
  | succ n ih =>
    intro d s res d' s' hrun
    simp only [GenerateDungeonGridAux] at hrun
    split at hrun
    · cases hrun
    · rcases Option.some.inj hrun with h2
      rw [← (Prod.mk.injEq _ _ _ _).mp ((Prod.mk.injEq _ _ _ _).mp h2).2 |>.1]
      exact reset_geomInv d d.width d.height
    · exact ih _ _ _ _ _ hrun
    · rcases Option.some.inj hrun with h2
      rw [← (Prod.mk.injEq _ _ _ _).mp ((Prod.mk.injEq _ _ _ _).mp h2).2 |>.1]
      exact reset_geomInv d d.width d.height
    · rcases Option.some.inj hrun with h2
      rw [← (Prod.mk.injEq _ _ _ _).mp ((Prod.mk.injEq _ _ _ _).mp h2).2 |>.1]
      refine foldlPreserve (fun (acc : Dungeon × Streams) =>
        GeomInv d.width d.height d.border acc.1) _ _ _ ?_
        (reset_geomInv d d.width d.height)
      intro acc br _ hacc
      exact dgPlaceBranch_inv _ br _ hacc

theorem placeRoomWrite_inv {w h b : Int} (x y rw rh : Int) (l : List (Int × Int)) :
    ∀ (d : Dungeon), GeomInv w h b d →
      GeomInv w h b (placeRoomWrite x y rw rh l d).2 := by
  induction l with
  | nil =>
    intro d hd
    exact hd
  | cons p rest ih =>
    intro d hd
    simp only [placeRoomWrite]
    split
    · split
      · split
        · exact setTile_geomInv p.1 p.2 DungeonTile.preWall hd
        · exact ih _ (setTile_geomInv p.1 p.2 DungeonTile.preWall hd)
      · exact ih _ hd
    · split
      · exact setTile_geomInv p.1 p.2 DungeonTile.floor hd
      · exact ih _ (setTile_geomInv p.1 p.2 DungeonTile.floor hd)

theorem placeRoom_inv {w h b : Int} {d : Dungeon} (x y rw rh : Int)
    (hd : GeomInv w h b d) : GeomInv w h b (placeRoom d x y rw rh).2 := by
  simp only [placeRoom]
  split
  · exact hd
  · have h1 := placeRoomWrite_inv x y rw rh (roomArea d.wallThickness x y rw rh) d hd
    split
    · exact h1
    · exact ⟨h1.1, h1.2.1, h1.2.2.1, h1.2.2.2⟩

theorem placeRoom_inv2 {w h b : Int} {d dOut : Dungeon} {x y rw rh : Int}
    {r : Except GenError Unit} (heq : placeRoom d x y rw rh = (r, dOut))
    (hd : GeomInv w h b d) : GeomInv w h b dOut := by
  have h2 := placeRoom_inv (w := w) (h := h) (b := b) x y rw rh hd
  rw [heq] at h2
  exact h2

theorem gdLoop_inv :
    ∀ (fuel : Nat) (rc sx sy rw rh : Int) (prevRooms : List Rect) (d : Dungeon)
      (str : Streams) {w h b : Int} (r : GDLoopRes),
      GeomInv w h b d → gdLoop fuel rc sx sy rw rh prevRooms d str = some r →
      (∀ d' s', r = GDLoopRes.hardTimeout d' s' → GeomInv w h b d') ∧
      (∀ d' s', r = GDLoopRes.retryTimeout d' s' → GeomInv w h b d') ∧
      (∀ d' s', r = GDLoopRes.done d' s' → GeomInv w h b d') := by
  intro fuel
  induction fuel with
  | zero =>
    intro rc sx sy rw rh prevRooms d str w h b r _ hrun
    cases hrun
  | succ n ih =>
    intro rc sx sy rw rh prevRooms d str w h b r hd hrun
    rw [gdLoop] at hrun
    split at hrun
    · split at hrun
      split at hrun
      · rcases Option.some.inj hrun with h2
        subst h2
        refine ⟨?_, ?_, ?_⟩ <;> intro d' s' heq <;> cases heq
        · exact hd
      · split at hrun
        · rcases Option.some.inj hrun with h2
          subst h2
          refine ⟨?_, ?_, ?_⟩ <;> intro d' s' heq <;> cases heq
          · exact hd
        · split at hrun
          split at hrun
          split at hrun
          split at hrun
          split at hrun
          split at hrun
          split at hrun
          split at hrun
          · rename_i e2 dFail2 heqP
            split at hrun
            refine ih _ _ _ _ _ _ _ _ r ?_ hrun
            exact placeRoom_inv2 heqP hd
          · rename_i u2 dOk2 heqP
            have hOk : GeomInv w h b dOk2 := placeRoom_inv2 heqP hd
            split at hrun
            · refine ih _ _ _ _ _ _ _ _ r ?_ hrun
              refine foldlPreserve (GeomInv w h b) _ _ _ ?_ ?_
              · intro a xx _ ha
                refine foldlPreserve (GeomInv w h b) _ _ _ ?_ ha
                intro a2 yy _ ha2
                exact setTile_geomInv xx yy DungeonTile.floor ha2
              · exact ⟨hOk.1, hOk.2.1, hOk.2.2.1, hOk.2.2.2⟩
            · refine ih _ _ _ _ _ _ _ _ r ?_ hrun
              refine foldlPreserve (GeomInv w h b) _ _ _ ?_ ?_
              · intro a xx _ ha
                refine foldlPreserve (GeomInv w h b) _ _ _ ?_ ha
                intro a2 yy _ ha2
                exact setTile_geomInv xx yy DungeonTile.floor ha2
              · exact ⟨hOk.1, hOk.2.1, hOk.2.2.1, hOk.2.2.2⟩
    · rcases Option.some.inj hrun with h2
      subst h2
      refine ⟨?_, ?_, ?_⟩ <;> intro d' s' heq <;> cases heq
      · exact hd

theorem gdAux_inv (roomCount : Int) :
    ∀ (fuel : Nat) (d : Dungeon) (s : Streams) (res : Except GenError Unit)
      (d' : Dungeon) (s' : Streams),
      GenerateDungeonAux roomCount fuel d s = some (res, d', s') →
      GeomInv d.width d.height d.border d' := by
  intro fuel
  induction fuel with
  | zero =>
    intro d s res d' s' hrun
    cases hrun
  | succ n ih =>
    intro d s res d' s' hrun
    simp only [GenerateDungeonAux] at hrun
    have hd1 : GeomInv d.width d.height d.border
        (placeRoom (ResetDungeon d d.width d.height) (Int.tdiv d.width 2)
          (Int.tdiv d.height 2) (randInt d.minRoomWidth d.maxRoomWidth s.rng).1
          (randInt d.minRoomHeight d.maxRoomHeight
            (randInt d.minRoomWidth d.maxRoomWidth s.rng).2).1).2 :=
      placeRoom_inv _ _ _ _ (reset_geomInv d d.width d.height)
    split at hrun
    · cases hrun
    all_goals rename_i heq
    · rcases Option.some.inj hrun with h2
      rw [← (Prod.mk.injEq _ _ _ _).mp ((Prod.mk.injEq _ _ _ _).mp h2).2 |>.1]
      exact (gdLoop_inv _ _ _ _ _ _ _ _ _ _ hd1 heq).1 _ _ rfl
    · exact ih _ _ _ _ _ hrun
    · rcases Option.some.inj hrun with h2
      rw [← (Prod.mk.injEq _ _ _ _).mp ((Prod.mk.injEq _ _ _ _).mp h2).2 |>.1]
      exact (gdLoop_inv _ _ _ _ _ _ _ _ _ _ hd1 heq).2.2 _ _ rfl

theorem generateDungeon_inv (roomCount : Int) (fuel : Nat) (d : Dungeon)
    (str : Streams) (res : Except GenError Unit) (d' : Dungeon) (s' : Streams)
    (hd : FloorInBand d)
    (hrun : GenerateDungeon d roomCount str fuel = some (res, d', s')) :
    GeomInv d.width d.height d.border d' := by
  simp only [GenerateDungeon] at hrun
  split at hrun
  · rcases Option.some.inj hrun with h2
    rw [← (Prod.mk.injEq _ _ _ _).mp ((Prod.mk.injEq _ _ _ _).mp h2).2 |>.1]
    exact ⟨rfl, rfl, rfl, hd⟩
  · exact gdAux_inv roomCount fuel d str res d' s' hrun

theorem geomInv_floorInBand {w h b : Int} {d2 : Dungeon} (hg : GeomInv w h b d2) :
    FloorInBand d2 := by
  unfold FloorInBand
  rw [hg.1, hg.2.1, hg.2.2.1]
  exact hg.2.2.2

theorem applyOp_inv (d : Dungeon) (op : DungeonOp) (hd : FloorInBand d) :
    FloorInBand (applyOp d op) := by
  cases op with
  | setOp x y t =>
    exact geomInv_floorInBand (setTile_geomInv x y t ⟨rfl, rfl, rfl, hd⟩)
  | resetOp =>
    exact geomInv_floorInBand (reset_geomInv d d.width d.height)
  | addWallsOp =>
    exact geomInv_floorInBand (addWalls_geomInv ⟨rfl, rfl, rfl, hd⟩)
  | cleanWallsOp k =>
    exact geomInv_floorInBand (cleanWalls_geomInv k ⟨rfl, rfl, rfl, hd⟩)
  | cleanIslandsOp =>
    exact geomInv_floorInBand (cleanIslands_geomInv ⟨rfl, rfl, rfl, hd⟩)
  | randomWalkOp tc s fuel =>
    simp only [applyOp]
    split
    · rename_i r heq
      obtain ⟨res, d', s'⟩ := r
      exact geomInv_floorInBand (rwAux_inv tc fuel d s res d' s' heq)
    · exact hd
  | dungeonGridOp rc s fuel =>
    simp only [applyOp]
    split
    · rename_i r heq
      obtain ⟨res, d', s'⟩ := r
      exact geomInv_floorInBand (dgAux_inv rc fuel d s res d' s' heq)
    · exact hd
  | dungeonOp rc s fuel =>
    simp only [applyOp]
    split
    · rename_i r heq
      obtain ⟨res, d', s'⟩ := r
      exact geomInv_floorInBand (generateDungeon_inv rc fuel d s res d' s' hd heq)
    · exact hd

theorem applyOps_inv (ops : List DungeonOp) :
    ∀ (d : Dungeon), FloorInBand d → FloorInBand (applyOps d ops) := by
  induction ops with
  | nil =>
    intro d hd
    exact hd
  | cons op rest ih =>
    intro d hd
    exact ih (applyOp d op) (applyOp_inv d op hd)

theorem getRaw_eq_void_or_mem (tiles : List (List DungeonTile)) (x y : Int) :
    getRaw tiles x y = DungeonTile.void ∨
      ∃ row ∈ tiles, getRaw tiles x y ∈ row := by
  unfold getRaw
  split
  · exact Or.inl rfl
  · by_cases hy : y.toNat < tiles.length
    · rw [List.getD_eq_getElem _ _ hy]
      by_cases hx : x.toNat < tiles[y.toNat].length
      · right
        exact ⟨tiles[y.toNat], List.getElem_mem hy,
          by rw [List.getD_eq_getElem _ _ hx]; exact List.getElem_mem hx⟩
      · left
        rw [List.getD_eq_getElem?_getD, List.getElem?_eq_none (by omega)]
        rfl
    · left
      rw [List.getD_eq_getElem?_getD tiles, List.getElem?_eq_none (by omega)]
      rfl

theorem bareD_floorInBand : FloorInBand bareD := by
  intro x y hf
  rcases getRaw_eq_void_or_mem bareD.tiles x y with h0 | ⟨row, hrow, hmem⟩
  · rw [h0] at hf
    cases hf
  · rw [hf] at hmem
    fin_cases hrow <;> exact absurd hmem (by decide)

/-- Claim C2: a `Floor` write through `SetTile` outside
`[Border, Width-Border) × [Border, Height-Border)` fails with
`ErrOutOfBounds` and leaves the dungeon untouched; consequently every
sequence of generation and post-processing operations preserves the
invariant that all `Floor` cells lie inside that band. -/
theorem claimC2 :
    (∀ (d : Dungeon) (x y : Int),
      outsideBand d.width d.height d.border x y →
      SetTile d x y DungeonTile.floor = (Except.error GenError.outOfBounds, d)) ∧
    (∀ (d : Dungeon) (ops : List DungeonOp),
      FloorInBand d → FloorInBand (applyOps d ops)) := by
  constructor
  · intro d x y hob
    unfold SetTile
    rw [if_pos ⟨rfl, hob⟩]
  · intro d ops hd
    exact applyOps_inv ops d hd

/-- Claim C2, witness: on a concrete floor-free dungeon, the out-of-band
floor write at (0,0) fails without mutation, and a concrete operation
sequence keeps all floors inside the band. -/
theorem claimC2_witness :
    SetTile bareD 0 0 DungeonTile.floor = (Except.error GenError.outOfBounds, bareD) ∧
      FloorInBand (applyOps bareD
        [DungeonOp.cleanWallsOp 1, DungeonOp.addWallsOp, DungeonOp.cleanIslandsOp]) :=
  ⟨claimC2.1 bareD 0 0 (by decide),
    claimC2.2 bareD _ bareD_floorInBand⟩

theorem setRaw_dims {w h : Int} {tiles : List (List DungeonTile)} (x y : Int)
    (t : DungeonTile) (hd : TilesDims w h tiles) :
    TilesDims w h (setRaw tiles x y t) :=
  ⟨(length_setRaw tiles x y t).trans hd.1, rows_setRaw tiles x y t _ hd.2⟩

theorem SetTile_dims {w h : Int} {d : Dungeon} (x y : Int) (t : DungeonTile)
    (hd : TilesDims w h d.tiles) : TilesDims w h ((SetTile d x y t).2).tiles := by
  rw [SetTile_tiles_eq]
  split
  · exact hd
  · exact setRaw_dims x y t hd

theorem setTile_wall_cell (a : Dungeon) (u v cx cy : Int) :
    getRaw ((SetTile a u v DungeonTile.wall).2).tiles cx cy = getRaw a.tiles cx cy ∨
      getRaw ((SetTile a u v DungeonTile.wall).2).tiles cx cy = DungeonTile.wall := by
  rcases SetTile_tiles_or a u v DungeonTile.wall with ht | ht
  · rw [ht]
    exact Or.inl rfl
  · rw [ht]
    by_cases hsame : cx = u ∧ cy = v
    · rw [hsame.1, hsame.2]
      rcases getRaw_setRaw_self_or a.tiles u v DungeonTile.wall with hr | hr
      · exact Or.inr hr
      · rw [hr, ← hsame.1, ← hsame.2]
        exact Or.inl rfl
    · rw [getRaw_setRaw_ne _ _ _ _ _ _ (by tauto)]
      exact Or.inl rfl

theorem setTile_wall_awInv {w h : Int} {a : Dungeon} (u v : Int) (ha : AWInv w h a) :
    AWInv w h ((SetTile a u v DungeonTile.wall).2) :=
  ⟨by rw [SetTile_snd]; exact ha.1, by rw [SetTile_snd]; exact ha.2.1,
    by rw [SetTile_snd]; exact ha.2.2.1, SetTile_dims u v DungeonTile.wall ha.2.2.2⟩

theorem addWallsStamp_step {w h : Int} (wt x y cx cy : Int) (a : Dungeon)
    (ha : AWInv w h a) :
    AWInv w h (addWallsStamp wt x y a) ∧
      (getRaw (addWallsStamp wt x y a).tiles cx cy = getRaw a.tiles cx cy ∨
        getRaw (addWallsStamp wt x y a).tiles cx cy = DungeonTile.wall) := by
  unfold addWallsStamp
  refine foldlPreserve (fun a2 => AWInv w h a2 ∧
      (getRaw a2.tiles cx cy = getRaw a.tiles cx cy ∨
        getRaw a2.tiles cx cy = DungeonTile.wall))
    _ _ _ ?_ ⟨ha, Or.inl rfl⟩
  intro a2 dx _ ha2
  refine foldlPreserve (fun a2 => AWInv w h a2 ∧
      (getRaw a2.tiles cx cy = getRaw a.tiles cx cy ∨
        getRaw a2.tiles cx cy = DungeonTile.wall))
    _ _ _ ?_ ha2
  intro a3 dy _ ha3
  split
  · refine ⟨setTile_wall_awInv _ _ ha3.1, ?_⟩
    rcases setTile_wall_cell a3 (x + dx) (y + dy) cx cy with hc | hc
    · rw [hc]
      exact ha3.2
    · exact Or.inr hc
  · exact ha3

theorem addWallsCell_step {w h : Int} (wt x y cx cy : Int) (a : Dungeon)
    (ha : AWInv w h a) :
    AWInv w h (addWallsCell wt a x y) ∧
      (getRaw (addWallsCell wt a x y).tiles cx cy = getRaw a.tiles cx cy ∨
        getRaw (addWallsCell wt a x y).tiles cx cy = DungeonTile.wall) := by
  unfold addWallsCell
  split
  · exact addWallsStamp_step wt x y cx cy a ha
  · exact ⟨setTile_wall_awInv _ _ ha, setTile_wall_cell a x y cx cy⟩
  · exact ⟨ha, Or.inl rfl⟩

theorem addWallsFold_inv {w h : Int} (wt x y : Int) (ys xs : List Int) (d0 : Dungeon)
    (hd0 : AWInv w h d0) :
    AWInv w h (ys.foldl (fun a yy =>
        xs.foldl (fun a2 xx => addWallsCell wt a2 xx yy) a) d0) ∧
      (getRaw (ys.foldl (fun a yy =>
          xs.foldl (fun a2 xx => addWallsCell wt a2 xx yy) a) d0).tiles x y =
          getRaw d0.tiles x y ∨
        getRaw (ys.foldl (fun a yy =>
          xs.foldl (fun a2 xx => addWallsCell wt a2 xx yy) a) d0).tiles x y =
          DungeonTile.wall) := by
  refine foldlPreserve (fun a => AWInv w h a ∧
      (getRaw a.tiles x y = getRaw d0.tiles x y ∨
        getRaw a.tiles x y = DungeonTile.wall))
    _ ys d0 ?_ ⟨hd0, Or.inl rfl⟩
  intro a yy _ ha
  refine foldlPreserve (fun a => AWInv w h a ∧
      (getRaw a.tiles x y = getRaw d0.tiles x y ∨
        getRaw a.tiles x y = DungeonTile.wall))
    _ xs a ?_ ha
  intro a2 xx _ ha2
  have hstep := addWallsCell_step wt xx yy x y a2 ha2.1
  refine ⟨hstep.1, ?_⟩
  rcases hstep.2 with hc | hc
  · rw [hc]
    exact ha2.2
  · exact Or.inr hc

theorem addWallsCell_est {w h : Int} (wt x y : Int) (a : Dungeon)
    (ha : AWInv w h a) (hx0 : 0 ≤ x) (hxw : x < w) (hy0 : 0 ≤ y) (hyh : y < h) :
    getRaw (addWallsCell wt a x y).tiles x y ≠ DungeonTile.preWall := by
  have hband : ¬outsideBand a.width a.height a.border x y := by
    obtain ⟨hw, hh, hb, _⟩ := ha
    rw [hw, hh, hb]
    unfold outsideBand
    omega
  have hget : GetTile a x y = Except.ok (getRaw a.tiles x y) := by
    unfold GetTile
    rw [if_neg hband]
  have hyl : y.toNat < a.tiles.length := by
    rw [ha.2.2.2.1]
    omega
  have hxl : x.toNat < (a.tiles.getD y.toNat []).length := by
    rw [List.getD_eq_getElem _ _ hyl, ha.2.2.2.2 _ (List.getElem_mem hyl)]
    omega
  cases hval : getRaw a.tiles x y with
  | floor =>
    rw [hval] at hget
    have heq : addWallsCell wt a x y = addWallsStamp wt x y a := by
      unfold addWallsCell
      rw [hget]
    rw [heq]
    rcases (addWallsStamp_step wt x y x y a ha).2 with hc | hc
    · rw [hc, hval]
      decide
    · rw [hc]
      decide
  | preWall =>
    rw [hval] at hget
    have heq : addWallsCell wt a x y = (SetTile a x y DungeonTile.wall).2 := by
      unfold addWallsCell
      rw [hget]
    have ht : (SetTile a x y DungeonTile.wall).2.tiles =
        setRaw a.tiles x y DungeonTile.wall := by
      rw [SetTile_tiles_eq, if_neg (by simp)]
    rw [heq, ht, getRaw_setRaw_self _ _ _ _ hx0 hy0 hyl hxl]
    decide
  | void =>
    rw [hval] at hget
    have heq : addWallsCell wt a x y = a := by
      unfold addWallsCell
      rw [hget]
    rw [heq, hval]
    decide
  | wall =>
    rw [hval] at hget
    have heq : addWallsCell wt a x y = a := by
      unfold addWallsCell
      rw [hget]
    rw [heq, hval]
    decide
  | doorTile =>
    rw [hval] at hget
    have heq : addWallsCell wt a x y = a := by
      unfold addWallsCell
      rw [hget]
    rw [heq, hval]
    decide
  | roomBegin =>
    rw [hval] at hget
    have heq : addWallsCell wt a x y = a := by
      unfold addWallsCell
      rw [hget]
    rw [heq, hval]
    decide
  | roomEnd =>
    rw [hval] at hget
    have heq : addWallsCell wt a x y = a := by
      unfold addWallsCell
      rw [hget]
    rw [heq, hval]
    decide

theorem getRaw_out {w h : Int} {tiles : List (List DungeonTile)} (x y : Int)
    (hd : TilesDims w h tiles) (hout : ¬(0 ≤ x ∧ x < w ∧ 0 ≤ y ∧ y < h)) :
    getRaw tiles x y = DungeonTile.void := by
  unfold getRaw
  split
  · rfl
  · rename_i hneg
    by_cases hy : y.toNat < tiles.length
    · rw [List.getD_eq_getElem _ _ hy]
      have hrl : tiles[y.toNat].length = w.toNat := hd.2 _ (List.getElem_mem hy)
      have hx : tiles[y.toNat].length ≤ x.toNat := by
        rw [hrl]
        have h1 := hd.1
        omega
      rw [List.getD_eq_getElem?_getD, List.getElem?_eq_none hx]
      rfl
    · rw [List.getD_eq_getElem?_getD tiles, List.getElem?_eq_none (by omega)]
      rfl

theorem addWalls_tiles (d : Dungeon) :
    (AddWalls d).tiles = ((intRange 0 d.height).foldl (fun a yy =>
      (intRange 0 d.width).foldl (fun a2 xx =>
        addWallsCell d.wallThickness a2 xx yy) a) { d with border := 0 }).tiles := rfl

/-- Claim C6: after `AddWalls` no cell of the raw array holds `PreWall`;
every cell that held `PreWall` (anywhere, border band included) holds
`Wall` afterwards. -/
theorem claimC6 (d : Dungeon) (x y : Int)
    (hdims : TilesDims d.width d.height d.tiles) :
    getRaw (AddWalls d).tiles x y ≠ DungeonTile.preWall ∧
      (getRaw d.tiles x y = DungeonTile.preWall →
        getRaw (AddWalls d).tiles x y = DungeonTile.wall) := by
  have hd0 : AWInv d.width d.height ({ d with border := 0 }) := ⟨rfl, rfl, rfl, hdims⟩
  rw [addWalls_tiles]
  have hfold := addWallsFold_inv d.wallThickness x y (intRange 0 d.height)
    (intRange 0 d.width) _ hd0
  by_cases hin : 0 ≤ x ∧ x < d.width ∧ 0 ≤ y ∧ y < d.height
  · have hproc := foldlProcessed (AWInv d.width d.height)
      (fun a yy => (0 ≤ yy ∧ yy < d.height) →
        ∀ xx, 0 ≤ xx → xx < d.width → getRaw a.tiles xx yy ≠ DungeonTile.preWall)
      (fun a yy => (intRange 0 d.width).foldl (fun a2 xx =>
        addWallsCell d.wallThickness a2 xx yy) a)
      ?_ ?_ ?_ (intRange 0 d.height) _ hd0 y (mem_intRange.mpr ⟨hin.2.2.1, hin.2.2.2⟩)
    · have hne := hproc ⟨hin.2.2.1, hin.2.2.2⟩ x hin.1 hin.2.1
      refine ⟨hne, ?_⟩
      intro hpre
      rcases hfold.2 with hc | hc
      · rw [hc] at hne ⊢
        exact absurd hpre hne
      · exact hc
    · intro a c ha
      exact (addWallsFold_inv d.wallThickness 0 0 [c] (intRange 0 d.width) a ha).1
    · intro a c ha
      intro hcy xx hx0 hxw
      have hinner := foldlProcessed (AWInv d.width d.height)
        (fun a2 xx => (0 ≤ xx ∧ xx < d.width) →
          getRaw a2.tiles xx c ≠ DungeonTile.preWall)
        (fun a2 xx => addWallsCell d.wallThickness a2 xx c)
        ?_ ?_ ?_ (intRange 0 d.width) a ha xx (mem_intRange.mpr ⟨hx0, hxw⟩)
      · exact hinner ⟨hx0, hxw⟩
      · intro a2 c2 ha2
        exact (addWallsCell_step d.wallThickness c2 c 0 0 a2 ha2).1
      · intro a2 c2 ha2 hb
        exact addWallsCell_est d.wallThickness c2 c a2 ha2 hb.1 hb.2 hcy.1 hcy.2
      · intro a2 c2 c2' ha2 hp hb
        rcases (addWallsCell_step d.wallThickness c2' c c2 c a2 ha2).2 with hc | hc
        · rw [hc]
          exact hp hb
        · rw [hc]
          decide
    · intro a c c' ha hp hcy xx hx0 hxw
      have hone : getRaw ((intRange 0 d.width).foldl
            (fun a2 xx => addWallsCell d.wallThickness a2 xx c') a).tiles xx c =
            getRaw a.tiles xx c ∨
          getRaw ((intRange 0 d.width).foldl
            (fun a2 xx => addWallsCell d.wallThickness a2 xx c') a).tiles xx c =
            DungeonTile.wall :=
        (addWallsFold_inv d.wallThickness xx c [c'] (intRange 0 d.width) a ha).2
      show getRaw ((intRange 0 d.width).foldl
          (fun a2 xx => addWallsCell d.wallThickness a2 xx c') a).tiles xx c ≠
        DungeonTile.preWall
      rcases hone with hc | hc
      · rw [hc]
        exact hp hcy xx hx0 hxw
      · rw [hc]
        decide
  · have hvoid : getRaw ((intRange 0 d.height).foldl (fun a yy =>
        (intRange 0 d.width).foldl (fun a2 xx =>
          addWallsCell d.wallThickness a2 xx yy) a) { d with border := 0 }).tiles x y =
        DungeonTile.void := getRaw_out x y hfold.1.2.2.2 hin
    have hvoid0 : getRaw d.tiles x y = DungeonTile.void := getRaw_out x y hdims hin
    refine ⟨by rw [hvoid]; decide, ?_⟩
    intro hpre
    rw [hvoid0] at hpre
    cases hpre

/-- Claim C6, witness: on a concrete dungeon with a `PreWall` ring, the
cell (1,0) is no longer `PreWall` after `AddWalls` and has become a
wall. -/
theorem claimC6_witness :
    getRaw (AddWalls preWallD).tiles 1 0 ≠ DungeonTile.preWall ∧
      (getRaw preWallD.tiles 1 0 = DungeonTile.preWall →
        getRaw (AddWalls preWallD).tiles 1 0 = DungeonTile.wall) :=
  claimC6 preWallD 1 0 (by decide)

theorem length_pairList (l m : List Int) :
    (l.flatMap (fun tx => m.map (fun ty => (tx, ty)))).length =
      l.length * m.length := by
  rw [List.length_flatMap]
  have h2 : List.map (List.length ∘ fun tx => m.map (fun ty => (tx, ty))) l =
      List.replicate l.length m.length := by
    rw [List.eq_replicate_iff]
    refine ⟨by simp, ?_⟩
    intro c hc
    rcases List.mem_map.mp hc with ⟨a, _, rfl⟩
    simp
  rw [h2, List.sum_replicate, smul_eq_mul]

/-- Claim C4, counterexample: with `MinDoorSize = MaxDoorSize = 1` the
drawn side value is `cs = 1` and the stamp loops
`for tx := x-cs/2; tx < x+cs/2` target zero cells, not one. -/
theorem claimC4_cex :
    (rwStampTargets 0 0 1).length = 0 ∧ (rwStampTargets 0 0 1).length ≠ 1 := by
  decide

/-- Claim C4, amended: each stamp draws `cs` from `[MinDoorSize,
MaxDoorSize]`, but targets `2*(cs/2)` columns and `2*(cs/2)` rows of
cells around the walker (`cs` when `cs` is even, `cs-1` when odd; in
particular zero cells for `cs = 1`). -/
theorem claimC4 (x y cs a b : Int) (r : List Nat) (hab : a ≤ b) :
    (intRange (x - Int.tdiv cs 2) (x + Int.tdiv cs 2)).length =
      (2 * Int.tdiv cs 2).toNat ∧
    (intRange (y - Int.tdiv cs 2) (y + Int.tdiv cs 2)).length =
      (2 * Int.tdiv cs 2).toNat ∧
    (rwStampTargets x y cs).length =
      (2 * Int.tdiv cs 2).toNat * (2 * Int.tdiv cs 2).toNat ∧
    a ≤ (randInt a b r).1 ∧ (randInt a b r).1 ≤ b := by
  have hcol : (intRange (x - Int.tdiv cs 2) (x + Int.tdiv cs 2)).length =
      (2 * Int.tdiv cs 2).toNat := by
    rw [length_intRange]
    congr 1
    ring
  have hrow : (intRange (y - Int.tdiv cs 2) (y + Int.tdiv cs 2)).length =
      (2 * Int.tdiv cs 2).toNat := by
    rw [length_intRange]
    congr 1
    ring
  have h0 : (0 : Int) ≤ ((popRng r).1 : Int) := Int.natCast_nonneg _
  have h1 : 0 ≤ Int.tmod ((popRng r).1 : Int) (b + 1 - a) :=
    Int.tmod_nonneg _ h0
  have h2 : Int.tmod ((popRng r).1 : Int) (b + 1 - a) < b + 1 - a :=
    Int.tmod_lt_of_pos _ (by omega)
  refine ⟨hcol, hrow, ?_, ?_, ?_⟩
  · unfold rwStampTargets
    rw [length_pairList, hcol, hrow]
  · simp only [randInt]
    omega
  · simp only [randInt]
    omega

/-- Claim C4, witness: for `cs = 2` drawn from `[1, 2]`, the stamp
targets 2 columns and 2 rows (4 cells). -/
theorem claimC4_witness :
    (1 : Int) ≤ 2 ∧
      ((intRange (5 - Int.tdiv 2 2) (5 + Int.tdiv 2 2)).length =
          (2 * Int.tdiv 2 2).toNat ∧
        (intRange (7 - Int.tdiv 2 2) (7 + Int.tdiv 2 2)).length =
          (2 * Int.tdiv 2 2).toNat ∧
        (rwStampTargets 5 7 2).length =
          (2 * Int.tdiv 2 2).toNat * (2 * Int.tdiv 2 2).toNat ∧
        1 ≤ (randInt 1 2 [5]).1 ∧ (randInt 1 2 [5]).1 ≤ 2) :=
  ⟨by decide, claimC4 5 7 2 1 2 [5] (by decide)⟩

theorem pairwise_intRange (lo hi : Int) : (intRange lo hi).Pairwise (· < ·) := by
  unfold intRange
  exact List.Pairwise.map _ (fun a b hab => by omega) (List.pairwise_lt_range _)

theorem convexityStep_frozen (d : Dungeon) (cy : Int) :
    ∀ (l : List Int) (st : Bool × Bool × Bool), st.2.2 = true →
      l.foldl (convexityStep d cy) st = st
  | [], _, _ => rfl
  | x :: l, st, h => by
    rw [List.foldl_cons]
    have hstep : convexityStep d cy st x = st := by
      unfold convexityStep
      simp [h]
    rw [hstep]
    exact convexityStep_frozen d cy l st h

theorem scanF_cons (d : Dungeon) (cy x : Int) (l : List Int) :
    scanF d cy (x :: l) ↔ cellIs d cy x DungeonTile.floor ∨ scanF d cy l := by
  unfold scanF
  constructor
  · rintro ⟨k, hk, hf⟩
    rcases List.mem_cons.mp hk with rfl | hk'
    · exact Or.inl hf
    · exact Or.inr ⟨k, hk', hf⟩
  · rintro (hf | ⟨k, hk, hf⟩)
    · exact ⟨x, List.mem_cons_self _ _, hf⟩
    · exact ⟨k, List.mem_cons_of_mem _ hk, hf⟩

theorem scanVF_cons (d : Dungeon) (cy x : Int) (l : List Int)
    (hmin : ∀ a ∈ l, x < a) :
    scanVF d cy (x :: l) ↔
      (cellIs d cy x DungeonTile.void ∧ scanF d cy l) ∨ scanVF d cy l := by
  unfold scanVF scanF
  constructor
  · rintro ⟨j, hj, k, hk, hjk, hv, hf⟩
    rcases List.mem_cons.mp hj with rfl | hj'
    · rcases List.mem_cons.mp hk with rfl | hk'
      · exact absurd hjk (lt_irrefl _)
      · exact Or.inl ⟨hv, k, hk', hf⟩
    · rcases List.mem_cons.mp hk with rfl | hk'
      · exact absurd (hmin j hj') (by omega)
      · exact Or.inr ⟨j, hj', k, hk', hjk, hv, hf⟩
  · rintro (⟨hv, k, hk, hf⟩ | ⟨j, hj, k, hk, hjk, hv, hf⟩)
    · exact ⟨x, List.mem_cons_self _ _, k, List.mem_cons_of_mem _ hk, hmin k hk, hv, hf⟩
    · exact ⟨j, List.mem_cons_of_mem _ hj, k, List.mem_cons_of_mem _ hk, hjk, hv, hf⟩

theorem scanFVF_cons (d : Dungeon) (cy x : Int) (l : List Int)
    (hmin : ∀ a ∈ l, x < a) :
    scanFVF d cy (x :: l) ↔
      (cellIs d cy x DungeonTile.floor ∧ scanVF d cy l) ∨ scanFVF d cy l := by
  unfold scanFVF scanVF
  constructor
  · rintro ⟨i, hi, j, hj, k, hk, hij, hjk, hfi, hv, hf⟩
    rcases List.mem_cons.mp hi with rfl | hi'
    · rcases List.mem_cons.mp hj with rfl | hj'
      · exact absurd hij (lt_irrefl _)
      · rcases List.mem_cons.mp hk with rfl | hk'
        · exact absurd (hmin j hj') (by omega)
        · exact Or.inl ⟨hfi, j, hj', k, hk', hjk, hv, hf⟩
    · rcases List.mem_cons.mp hj with rfl | hj'
      · exact absurd (hmin i hi') (by omega)
      · rcases List.mem_cons.mp hk with rfl | hk'
        · exact absurd (hmin j hj') (by omega)
        · exact Or.inr ⟨i, hi', j, hj', k, hk', hij, hjk, hfi, hv, hf⟩
  · rintro (⟨hfi, j, hj, k, hk, hjk, hv, hf⟩ | ⟨i, hi, j, hj, k, hk, hij, hjk, hfi, hv, hf⟩)
    · exact ⟨x, List.mem_cons_self _ _, j, List.mem_cons_of_mem _ hj,
        k, List.mem_cons_of_mem _ hk, hmin j hj, hjk, hfi, hv, hf⟩
    · exact ⟨i, List.mem_cons_of_mem _ hi, j, List.mem_cons_of_mem _ hj,
        k, List.mem_cons_of_mem _ hk, hij, hjk, hfi, hv, hf⟩

set_option maxHeartbeats 1600000 in
theorem convexityScan_spec (d : Dungeon) (cy : Int) :
    ∀ (l : List Int), l.Pairwise (· < ·) →
      ∀ (f v : Bool), (v = true → f = true) →
      ((l.foldl (convexityStep d cy) (f, v, false)).2.2 = true ↔
        ((f = true ∧ v = true ∧ scanF d cy l) ∨
          (f = true ∧ scanVF d cy l) ∨ scanFVF d cy l)) := by
  intro l
  induction l with
  | nil =>
    intro _ f v _
    simp [scanF, scanVF, scanFVF]
  | cons x rest ih =>
    intro hp f v hInv
    have hmin : ∀ a ∈ rest, x < a := (List.pairwise_cons.mp hp).1
    have ihh := ih (List.pairwise_cons.mp hp).2
    rw [List.foldl_cons, scanF_cons, scanVF_cons d cy x rest hmin,
      scanFVF_cons d cy x rest hmin]
    rcases hx : GetTile d x cy with e | t
    · have hstep : convexityStep d cy (f, v, false) x = (f, v, false) := by
        unfold convexityStep
        rw [hx]
        simp
      have hcf : ¬ cellIs d cy x DungeonTile.floor := by simp [cellIs, hx]
      have hcv : ¬ cellIs d cy x DungeonTile.void := by simp [cellIs, hx]
      rw [hstep, ihh f v hInv]
      tauto
    · cases t
      case floor =>
        have hcf : cellIs d cy x DungeonTile.floor := hx
        have hcv : ¬ cellIs d cy x DungeonTile.void := by simp [cellIs, hx]
        cases f
        · cases v
          · have hstep : convexityStep d cy
                ((false, false, false) : Bool × Bool × Bool) x
                = (true, false, false) := by
              unfold convexityStep
              rw [hx]
              simp
            rw [hstep, ihh true false (fun _ => rfl)]
            tauto
          · exact absurd (hInv rfl) Bool.false_ne_true
        · cases v
          · have hstep : convexityStep d cy
                ((true, false, false) : Bool × Bool × Bool) x
                = (true, false, false) := by
              unfold convexityStep
              rw [hx]
              simp
            rw [hstep, ihh true false (fun _ => rfl)]
            tauto
          · have hstep : convexityStep d cy
                ((true, true, false) : Bool × Bool × Bool) x
                = (true, true, true) := by
              unfold convexityStep
              rw [hx]
              simp
            rw [hstep, convexityStep_frozen d cy rest _ rfl]
            constructor
            · intro _
              exact Or.inl ⟨rfl, rfl, Or.inl hcf⟩
            · intro _
              rfl
      case void =>
        have hcv : cellIs d cy x DungeonTile.void := hx
        have hcf : ¬ cellIs d cy x DungeonTile.floor := by simp [cellIs, hx]
        cases f
        · cases v
          · have hstep : convexityStep d cy
                ((false, false, false) : Bool × Bool × Bool) x
                = (false, false, false) := by
              unfold convexityStep
              rw [hx]
              simp
            rw [hstep, ihh false false (fun h => h)]
            tauto
          · exact absurd (hInv rfl) Bool.false_ne_true
        · have hstep : convexityStep d cy
              ((true, v, false) : Bool × Bool × Bool) x
              = (true, true, false) := by
            unfold convexityStep
            rw [hx]
            simp
          rw [hstep, ihh true true (fun _ => rfl)]
          tauto
      all_goals
        have hstep : convexityStep d cy (f, v, false) x = (f, v, false) := by
          unfold convexityStep
          rw [hx]
          simp
      all_goals
        have hcf : ¬ cellIs d cy x DungeonTile.floor := by simp [cellIs, hx]
      all_goals
        have hcv : ¬ cellIs d cy x DungeonTile.void := by simp [cellIs, hx]
      all_goals rw [hstep, ihh f v hInv]
      all_goals tauto

theorem convexityFound_iff (d : Dungeon) (minX maxX minY maxY : Int) :
    convexityFound d minX maxX minY maxY = true ↔
      midlineFloorGapFloor d minX maxX minY maxY := by
  simp only [convexityFound, midlineFloorGapFloor]
  rw [convexityScan_spec d (minY + Int.tdiv (maxY - minY) 2) (intRange minX maxX)
    (pairwise_intRange _ _) false false (fun h => h)]
  simp only [Bool.false_eq_true, false_and, false_or]
  unfold scanFVF cellIs
  constructor
  · rintro ⟨i, hi, j, hj, k, hk, hij, hjk, hfi, hv, hf⟩
    exact ⟨i, j, k, (mem_intRange.mp hi).1, hij, hjk, (mem_intRange.mp hk).2,
      hfi, hv, hf⟩
  · rintro ⟨i, j, k, h1, h2, h3, h4, hfi, hv, hf⟩
    exact ⟨i, mem_intRange.mpr ⟨h1, by omega⟩, j, mem_intRange.mpr ⟨by omega, by omega⟩,
      k, mem_intRange.mpr ⟨by omega, h4⟩, h2, h3, hfi, hv, hf⟩

theorem convexityRetry_iff (d : Dungeon) (minX maxX minY maxY : Int) :
    convexityRetry d minX maxX minY maxY = true ↔
      ¬ midlineFloorGapFloor d minX maxX minY maxY := by
  unfold convexityRetry
  rw [← convexityFound_iff d minX maxX minY maxY]
  cases convexityFound d minX maxX minY maxY <;> simp

/-- Claim C1: code bug — the convexity check of `GenerateRandomWalk` is
inverted.  The claim (with the spec) says a Floor-gap-Floor midline causes
a retry and its absence lets the attempt pass the check; the code sets
`convX` exactly on finding that pattern and retries on `!convX`, so it
accepts the gapped midlines and retries the gap-free ones.  Concretely:
over `gapD` (midline floor-void-floor at x = 3,4,5) the attempt returns
success, and over `bareD` (no floor on the midline at all) it returns the
convexity retry. -/
theorem claimC1 :
    midlineFloorGapFloor gapD 3 6 2 2 ∧
      rwLoop 0 1 gapSt = some (RWOutcome.success, gapSt) ∧
      ¬ midlineFloorGapFloor bareD 1 3 1 3 ∧
      rwLoop 0 1 bareSt = some (RWOutcome.retryConvexity, bareSt) := by
  refine ⟨?_, ?_, ?_, ?_⟩
  · exact (convexityFound_iff gapD 3 6 2 2).mp (by decide)
  · rfl
  · exact fun hm => absurd ((convexityFound_iff bareD 1 3 1 3).mpr hm) (by decide)
  · rfl

/-- Claim C5, counterexample: on `cex5D` (20×20, border 0,
`MaxRoomWidth` 4, `MaxRoomHeight` 25) the claim's capacity bound is
`(20/4) * (20/25) = 5 * 0 = 0`, exceeded by `roomCount = 1`; yet
`GenerateDungeon` does not return `ErrNotEnoughSpace`: its actual
pre-check divides both factors by `MaxRoomWidth` and subtracts 2
(`(5-2)*(5-2) = 9 ≥ 1`), so the run proceeds and succeeds. -/
theorem claimC5_cex :
    (1 : Int) > Int.tdiv (cex5D.width - 2 * cex5D.border) cex5D.maxRoomWidth *
        Int.tdiv (cex5D.height - 2 * cex5D.border) cex5D.maxRoomHeight ∧
      (GenerateDungeon cex5D 1 ⟨[], []⟩ 1).map (fun r => r.1) =
        some (Except.ok ()) :=
  ⟨by decide, by rfl⟩

/-- Claim C5 (amended): `GenerateDungeon` fails fast with
`ErrNotEnoughSpace`, leaving the dungeon and the streams untouched,
whenever `roomCount > (mw-2)*(mh-2)` where `mw = (Width-2*Border)/MaxRoomWidth`
and `mh = (Height-2*Border)/MaxRoomWidth` (both divisions use
`MaxRoomWidth`; `MaxRoomHeight` is not consulted). -/
theorem claimC5 (d : Dungeon) (roomCount : Int) (str : Streams) (fuel : Nat)
    (h : roomCount > (Int.tdiv (d.width - d.border * 2) d.maxRoomWidth - 2) *
      (Int.tdiv (d.height - d.border * 2) d.maxRoomWidth - 2)) :
    GenerateDungeon d roomCount str fuel =
      some (Except.error GenError.notEnoughSpace, d, str) := by
  simp only [GenerateDungeon]
  rw [if_pos h]

/-- Claim C5, witness: `bareD` is 4×4 with border 1 and `MaxRoomWidth` 8,
so `mw = mh = 0` and the bound is `(0-2)*(0-2) = 4`; `roomCount = 5`
exceeds it and the call fails fast. -/
theorem claimC5_witness :
    ((5 : Int) > (Int.tdiv (bareD.width - bareD.border * 2) bareD.maxRoomWidth - 2) *
        (Int.tdiv (bareD.height - bareD.border * 2) bareD.maxRoomWidth - 2)) ∧
      GenerateDungeon bareD 5 ⟨[], []⟩ 1 =
        some (Except.error GenError.notEnoughSpace, bareD, ⟨[], []⟩) :=
  ⟨by decide, claimC5 bareD 5 ⟨[], []⟩ 1 (by decide)⟩

theorem gdAux_surface (roomCount : Int) :
    ∀ (fuel : Nat) (d : Dungeon) (str : Streams) (res : Except GenError Unit)
      (d' : Dungeon) (s' : Streams),
      GenerateDungeonAux roomCount fuel d str = some (res, d', s') →
      res = Except.ok () ∨ res = Except.error GenError.generationTimeout := by
  intro fuel
  induction fuel with
  | zero =>
    intro d str res d' s' h
    exact Option.noConfusion h
  | succ fuel ih =>
    intro d str res d' s' h
    simp only [GenerateDungeonAux] at h
    split at h
    · exact Option.noConfusion h
    · exact Or.inr (congrArg Prod.fst (Option.some.inj h)).symm
    · exact ih _ _ _ _ _ h
    · exact Or.inl (congrArg Prod.fst (Option.some.inj h)).symm

/-- Claim C9: `GenerateDungeon` never surfaces `ErrFloorAlreadyPlaced` or
`ErrOutOfBounds`: whatever the room count, the streams and the fuel, a
terminating run returns ok, `ErrNotEnoughSpace` or
`ErrGenerationTimeout` — a `placeRoom` failure inside the loop is caught
locally and turned into a rollback to a previously placed room. -/
theorem claimC9 (d : Dungeon) (roomCount : Int) (str : Streams) (fuel : Nat)
    (res : Except GenError Unit) (d' : Dungeon) (s' : Streams)
    (h : GenerateDungeon d roomCount str fuel = some (res, d', s')) :
    res = Except.ok () ∨ res = Except.error GenError.notEnoughSpace ∨
      res = Except.error GenError.generationTimeout := by
  simp only [GenerateDungeon] at h
  split at h
  · exact Or.inr (Or.inl (congrArg Prod.fst (Option.some.inj h)).symm)
  · rcases gdAux_surface roomCount fuel d str res d' s' h with h1 | h1
    · exact Or.inl h1
    · exact Or.inr (Or.inr h1)

/-- Claim C9, witness: the fail-fast run on `bareD` with `roomCount = 5`
returns `ErrNotEnoughSpace`, one of the three permitted results. -/
theorem claimC9_witness :
    (Except.error GenError.notEnoughSpace : Except GenError Unit) = Except.ok () ∨
      (Except.error GenError.notEnoughSpace : Except GenError Unit) =
        Except.error GenError.notEnoughSpace ∨
      (Except.error GenError.notEnoughSpace : Except GenError Unit) =
        Except.error GenError.generationTimeout :=
  claimC9 bareD 5 ⟨[], []⟩ 1 (Except.error GenError.notEnoughSpace) bareD ⟨[], []⟩
    (by rfl)

theorem foldlTransport {α β γ : Type _} (f : α → β → α) (g : γ → β → γ) (proj : α → γ)
    (hcomm : ∀ a b, proj (f a b) = g (proj a) b) :
    ∀ (l : List β) (a : α), proj (l.foldl f a) = l.foldl g (proj a)
  | [], _ => rfl
  | b :: l, a => by
    rw [List.foldl_cons, List.foldl_cons, foldlTransport f g proj hcomm l (f a b), hcomm]

theorem foldlPairFix {β R W : Type _} (g : R → W → β → R) :
    ∀ (l : List β) (rs : R) (w : W),
      l.foldl (fun (p : R × W) b => (g p.1 p.2 b, p.2)) (rs, w) =
        (l.foldl (fun r b => g r w b) rs, w)
  | [], _, _ => rfl
  | b :: l, rs, w => by
    rw [List.foldl_cons, List.foldl_cons]
    exact foldlPairFix g l (g rs w b) w

theorem foldl_flatMap {α β : Type _} (g : α → β → α) :
    ∀ (prs : List (List β)) (a : α),
      (prs.flatMap id).foldl g a = prs.foldl (fun x br => br.foldl g x) a
  | [], _ => rfl
  | br :: t, a => by
    simp only [List.flatMap_cons, id_eq, List.foldl_append, List.foldl_cons]
    exact foldl_flatMap g t (br.foldl g a)

theorem flatMap_appendLast : ∀ (prs : List (List Rect)) (r : Rect),
    (appendLast prs r).flatMap id = prs.flatMap id ++ [r] := by
  intro prs r
  unfold appendLast
  induction prs with
  | nil => rfl
  | cons x t ih =>
    cases t with
    | nil => simp
    | cons y t2 =>
      show (x :: ((y :: t2).dropLast ++ [(y :: t2).getLastD [] ++ [r]])).flatMap id =
        (x :: y :: t2).flatMap id ++ [r]
      rw [List.flatMap_cons, ih]
      simp [List.flatMap_cons, List.append_assoc]

theorem list_toFinset_map {α β : Type _} [DecidableEq α] [DecidableEq β]
    (f : α → β) (l : List α) : (l.map f).toFinset = l.toFinset.image f := by
  ext b
  simp

theorem insertRoom_fold_nodup : ∀ (l : List Rect) (rs : List Rect), rs.Nodup →
    ((l.foldl insertRoom rs).Nodup ∧ ∀ r ∈ l.foldl insertRoom rs, r ∈ rs ∨ r ∈ l)
  | [], _, h => ⟨h, fun _ hr => Or.inl hr⟩
  | a :: l, rs, h => by
    rw [List.foldl_cons]
    have hnd : (insertRoom rs a).Nodup := by
      unfold insertRoom
      split
      · exact h
      · rename_i hna
        rw [List.nodup_append]
        refine ⟨h, List.nodup_singleton a, fun b hb hba => ?_⟩
        rw [List.mem_singleton] at hba
        subst hba
        exact hna hb
    obtain ⟨h1, h2⟩ := insertRoom_fold_nodup l (insertRoom rs a) hnd
    refine ⟨h1, fun r hr => ?_⟩
    rcases h2 r hr with hin | hin
    · unfold insertRoom at hin
      split at hin
      · exact Or.inl hin
      · rcases List.mem_append.mp hin with h3 | h3
        · exact Or.inl h3
        · rw [List.mem_singleton] at h3
          subst h3
          exact Or.inr (List.mem_cons_self _ _)
    · exact Or.inr (List.mem_cons_of_mem _ hin)

theorem roomsFold_length_le (f : Rect → Rect) (cells : List Rect) :
    (cells.foldl (fun rs cur => insertRoom rs (f cur)) []).length ≤
      cells.toFinset.card := by
  have hmap : cells.foldl (fun rs cur => insertRoom rs (f cur)) [] =
      (cells.map f).foldl insertRoom [] := (List.foldl_map f insertRoom cells []).symm
  rw [hmap]
  obtain ⟨hnd, hmem⟩ := insertRoom_fold_nodup (cells.map f) [] List.nodup_nil
  have hsub : ((cells.map f).foldl insertRoom []).toFinset ⊆ (cells.map f).toFinset := by
    intro r hr
    rw [List.mem_toFinset] at hr ⊢
    rcases hmem r hr with h | h
    · cases h
    · exact h
  calc ((cells.map f).foldl insertRoom []).length
      = ((cells.map f).foldl insertRoom []).toFinset.card :=
        (List.toFinset_card_of_nodup hnd).symm
    _ ≤ (cells.map f).toFinset.card := Finset.card_le_card hsub
    _ = (cells.toFinset.image f).card := by rw [list_toFinset_map]
    _ ≤ cells.toFinset.card := Finset.card_image_le

theorem card_append_singleton_le (l : List Rect) (r : Rect) :
    (l ++ [r]).toFinset.card ≤ l.toFinset.card + 1 := by
  rw [List.toFinset_append, List.toFinset_cons, List.toFinset_nil,
    Finset.union_comm]
  exact le_trans (Finset.card_le_card (by simp [Finset.union_subset_iff]))
    (Finset.card_insert_le r l.toFinset)

theorem card_append_mem (l : List Rect) (r : Rect) (h : r ∈ l) :
    (l ++ [r]).toFinset.card = l.toFinset.card := by
  rw [List.toFinset_append]
  congr 1
  rw [Finset.union_eq_left]
  intro z hz
  rw [List.mem_toFinset] at hz ⊢
  rw [List.mem_singleton] at hz
  subst hz
  exact h

theorem wh_append (l : List Rect) (r : Rect) (hl : ∀ a ∈ l, a.w = 0 ∧ a.h = 0)
    (hr : r.w = 0 ∧ r.h = 0) : ∀ a ∈ l ++ [r], a.w = 0 ∧ a.h = 0 := by
  intro a ha
  rcases List.mem_append.mp ha with h1 | h1
  · exact hl a h1
  · rw [List.mem_singleton] at h1
    subst h1
    exact hr

theorem setTile_cfg (d : Dungeon) (x y : Int) (t : DungeonTile) :
    (SetTile d x y t).2.rooms = d.rooms ∧
      (SetTile d x y t).2.wallThickness = d.wallThickness ∧
      (SetTile d x y t).2.maxRoomWidth = d.maxRoomWidth := by
  rw [SetTile_snd]
  exact ⟨rfl, rfl, rfl⟩

theorem dgPlaceRoom_cfg (d : Dungeon) (s : Int) (cur : Rect) :
    (dgPlaceRoom d s cur).rooms =
        insertRoom d.rooms (dgRoomRect d.wallThickness d.maxRoomWidth s cur) ∧
      (dgPlaceRoom d s cur).wallThickness = d.wallThickness ∧
      (dgPlaceRoom d s cur).maxRoomWidth = d.maxRoomWidth := by
  simp only [dgPlaceRoom]
  refine foldlPreserve
    (fun (a : Dungeon) => a.rooms =
        insertRoom d.rooms (dgRoomRect d.wallThickness d.maxRoomWidth s cur) ∧
      a.wallThickness = d.wallThickness ∧ a.maxRoomWidth = d.maxRoomWidth)
    _ _ _ ?_ ⟨rfl, rfl, rfl⟩
  intro a dx _ ha
  refine foldlPreserve
    (fun (a2 : Dungeon) => a2.rooms =
        insertRoom d.rooms (dgRoomRect d.wallThickness d.maxRoomWidth s cur) ∧
      a2.wallThickness = d.wallThickness ∧ a2.maxRoomWidth = d.maxRoomWidth)
    _ _ _ ?_ ha
  intro a2 dy _ ha2
  obtain ⟨h1, h2, h3⟩ := setTile_cfg a2 dx dy DungeonTile.floor
  exact ⟨h1.trans ha2.1, h2.trans ha2.2.1, h3.trans ha2.2.2⟩

theorem dgCorridor_cfg (d : Dungeon) (s : Int) (cur prev : Rect) (str : Streams) :
    (dgCorridor d s cur prev str).1.rooms = d.rooms ∧
      (dgCorridor d s cur prev str).1.wallThickness = d.wallThickness ∧
      (dgCorridor d s cur prev str).1.maxRoomWidth = d.maxRoomWidth := by
  simp only [dgCorridor]
  refine foldlPreserve
    (fun (a : Dungeon) => a.rooms = d.rooms ∧ a.wallThickness = d.wallThickness ∧
      a.maxRoomWidth = d.maxRoomWidth)
    _ _ _ ?_ ⟨rfl, rfl, rfl⟩
  intro a x _ ha
  refine foldlPreserve
    (fun (a2 : Dungeon) => a2.rooms = d.rooms ∧ a2.wallThickness = d.wallThickness ∧
      a2.maxRoomWidth = d.maxRoomWidth)
    _ _ _ ?_ ha
  intro a2 y _ ha2
  obtain ⟨h1, h2, h3⟩ := setTile_cfg a2 _ _ DungeonTile.floor
  exact ⟨h1.trans ha2.1, h2.trans ha2.2.1, h3.trans ha2.2.2⟩

theorem dgBranchStep_proj (s : Int) (a : Dungeon × Streams × Option Rect) (cur : Rect) :
    ((dgBranchStep s a cur).1.rooms, (dgBranchStep s a cur).1.wallThickness,
      (dgBranchStep s a cur).1.maxRoomWidth) =
    (insertRoom a.1.rooms (dgRoomRect a.1.wallThickness a.1.maxRoomWidth s cur),
      a.1.wallThickness, a.1.maxRoomWidth) := by
  rcases a with ⟨ad, astr, aprev⟩
  cases aprev with
  | none =>
    simp only [dgBranchStep]
    obtain ⟨h1, h2, h3⟩ := dgPlaceRoom_cfg ad s cur
    rw [h1, h2, h3]
  | some prev =>
    simp only [dgBranchStep]
    obtain ⟨c1, c2, c3⟩ := dgCorridor_cfg (dgPlaceRoom ad s cur) s cur prev astr
    obtain ⟨h1, h2, h3⟩ := dgPlaceRoom_cfg ad s cur
    rw [c1, h1, c2, h2, c3, h3]

theorem dgPlaceBranch_rooms (s : Int) (branch : List Rect) (d : Dungeon) (str : Streams) :
    (dgPlaceBranch d s branch str).1.rooms =
        branch.foldl (fun rs cur =>
          insertRoom rs (dgRoomRect d.wallThickness d.maxRoomWidth s cur)) d.rooms ∧
      (dgPlaceBranch d s branch str).1.wallThickness = d.wallThickness ∧
      (dgPlaceBranch d s branch str).1.maxRoomWidth = d.maxRoomWidth := by
  have h := foldlTransport (dgBranchStep s)
    (fun (p : List Rect × Int × Int) cur =>
      (insertRoom p.1 (dgRoomRect p.2.1 p.2.2 s cur), p.2))
    (fun (a : Dungeon × Streams × Option Rect) =>
      (a.1.rooms, a.1.wallThickness, a.1.maxRoomWidth))
    (fun a cur => dgBranchStep_proj s a cur)
    branch (d, str, none)
  have hfix := foldlPairFix (fun (rs : List Rect) (w : Int × Int) (cur : Rect) =>
    insertRoom rs (dgRoomRect w.1 w.2 s cur)) branch d.rooms
    (d.wallThickness, d.maxRoomWidth)
  have h3 := h.trans hfix
  exact ⟨congrArg Prod.fst h3, congrArg (fun p => p.2.1) h3,
    congrArg (fun p => p.2.2) h3⟩

theorem dgFill_rooms (s : Int) (prs : List (List Rect)) (d : Dungeon) (str : Streams) :
    (prs.foldl (fun (acc : Dungeon × Streams) br => dgPlaceBranch acc.1 s br acc.2)
        (d, str)).1.rooms =
      (prs.flatMap id).foldl (fun rs cur =>
        insertRoom rs (dgRoomRect d.wallThickness d.maxRoomWidth s cur)) d.rooms := by
  have h := foldlTransport
    (fun (acc : Dungeon × Streams) br => dgPlaceBranch acc.1 s br acc.2)
    (fun (p : List Rect × Int × Int) br =>
      (br.foldl (fun rs cur => insertRoom rs (dgRoomRect p.2.1 p.2.2 s cur)) p.1, p.2))
    (fun (a : Dungeon × Streams) => (a.1.rooms, a.1.wallThickness, a.1.maxRoomWidth))
    (fun a br => by
      obtain ⟨h1, h2, h3⟩ := dgPlaceBranch_rooms s br a.1 a.2
      simp only [h1, h2, h3])
    prs (d, str)
  have hfix := foldlPairFix (fun (rs : List Rect) (w : Int × Int) (br : List Rect) =>
    br.foldl (fun rs2 cur => insertRoom rs2 (dgRoomRect w.1 w.2 s cur)) rs) prs d.rooms
    (d.wallThickness, d.maxRoomWidth)
  have h3 := h.trans hfix
  rw [foldl_flatMap]
  exact congrArg Prod.fst h3

theorem dgLoop_card (mw mh N : Int) :
    ∀ (fuel : Nat) (rc sx sy : Int) (rooms : List (List Bool))
      (prs : List (List Rect)) (s : Streams) (prs' : List (List Rect)) (s' : Streams),
      dgLoop mw mh fuel rc sx sy rooms prs s = some (DGLoopRes.done prs' s') →
      0 ≤ rc →
      (∀ r ∈ prs.flatMap id, r.w = 0 ∧ r.h = 0) →
      ((prs.flatMap id).toFinset.card : Int) + rc ≤ N →
      ((prs'.flatMap id).toFinset.card : Int) ≤ N := by
  intro fuel
  induction fuel with
  | zero =>
    intro rc sx sy rooms prs s prs' s' h
    exact Option.noConfusion h
  | succ fuel ih =>
    intro rc sx sy rooms prs s prs' s' h h0 hwh hcard
    simp only [dgLoop] at h
    split at h
    · split at h
      · exact DGLoopRes.noConfusion (Option.some.inj h)
      · split at h
        · exact DGLoopRes.noConfusion (Option.some.inj h)
        · split at h
          · split at h
            · exact DGLoopRes.noConfusion (Option.some.inj h)
            · rename_i hrc hrej c hfind
              have hc : c ∈ prs.flatMap id := List.mem_of_find?_eq_some hfind
              obtain ⟨hw0, hh0⟩ := hwh c hc
              have hceq : (⟨c.x, c.y, 0, 0⟩ : Rect) = c := by
                cases c
                simp_all
              have hflat : (appendLast (prs ++ [[]]) (⟨c.x, c.y, 0, 0⟩ : Rect)).flatMap id
                  = prs.flatMap id ++ [(⟨c.x, c.y, 0, 0⟩ : Rect)] := by
                rw [flatMap_appendLast, List.flatMap_append]
                simp
              refine ih rc c.x c.y _ _ _ prs' s' h h0 ?_ ?_
              · rw [hflat]
                exact wh_append _ _ hwh ⟨rfl, rfl⟩
              · rw [hflat, card_append_mem _ _ (by rw [hceq]; exact hc)]
                exact hcard
          · rename_i hrc hrej
            refine ih (rc - 1) _ _ _ _ _ prs' s' h (by omega) ?_ ?_
            · rw [flatMap_appendLast]
              exact wh_append _ _ hwh ⟨rfl, rfl⟩
            · rw [flatMap_appendLast]
              have hle := card_append_singleton_le (prs.flatMap id)
                ⟨(match (popRng s.rng).1 % 4 with
                  | 0 => (sx - 1, sy)
                  | 1 => (sx + 1, sy)
                  | 2 => (sx, sy - 1)
                  | _ => (sx, sy + 1) : Int × Int).1,
                  (match (popRng s.rng).1 % 4 with
                  | 0 => (sx - 1, sy)
                  | 1 => (sx + 1, sy)
                  | 2 => (sx, sy - 1)
                  | _ => (sx, sy + 1) : Int × Int).2, 0, 0⟩
              omega
    · rename_i hrc
      have h2 := Option.some.inj h
      injection h2 with h3 h4
      subst h3
      omega

theorem dgAux_rooms (roomCount : Int) (hrc : 0 ≤ roomCount) :
    ∀ (fuel : Nat) (d : Dungeon) (str : Streams) (d' : Dungeon) (s' : Streams),
      GenerateDungeonGridAux roomCount fuel d str = some (Except.ok (), d', s') →
      (d'.rooms.length : Int) ≤ roomCount := by
  intro fuel
  induction fuel with
  | zero =>
    intro d str d' s' h
    exact Option.noConfusion h
  | succ fuel ih =>
    intro d str d' s' h
    simp only [GenerateDungeonGridAux] at h
    split at h
    · exact Option.noConfusion h
    · exact Except.noConfusion (congrArg Prod.fst (Option.some.inj h))
    · exact ih _ _ _ _ h
    · exact Except.noConfusion (congrArg Prod.fst (Option.some.inj h))
    · rename_i prs s2 heq
      have hd' : (prs.foldl (fun (acc : Dungeon × Streams) br =>
          dgPlaceBranch acc.1 d.maxRoomWidth br acc.2)
          (ResetDungeon d d.width d.height, s2)).1 = d' :=
        congrArg (fun p => p.2.1) (Option.some.inj h)
      rw [← hd']
      have hfill := dgFill_rooms d.maxRoomWidth prs
        (ResetDungeon d d.width d.height) s2
      have hreset : (ResetDungeon d d.width d.height).rooms = [] := rfl
      have hcount := dgLoop_card
        (Int.tdiv (d.width - d.border * 2) (d.maxRoomWidth + d.wallThickness) + 1)
        (Int.tdiv (d.height - d.border * 2) (d.maxRoomWidth + d.wallThickness) + 1)
        roomCount (Nat.succ fuel) roomCount _ _ _ [[]] str prs s2 heq hrc
        (by intro r hr; simp at hr) (by simp)
      have hlen := roomsFold_length_le
        (dgRoomRect (ResetDungeon d d.width d.height).wallThickness
          (ResetDungeon d d.width d.height).maxRoomWidth d.maxRoomWidth)
        (prs.flatMap id)
      rw [hreset] at hfill
      have hlenr : ((prs.foldl (fun (acc : Dungeon × Streams) br =>
          dgPlaceBranch acc.1 d.maxRoomWidth br acc.2)
          (ResetDungeon d d.width d.height, s2)).1.rooms.length : Int) ≤
          ((prs.flatMap id).toFinset.card : Int) := by
        rw [hfill]
        exact_mod_cast hlen
      exact le_trans hlenr hcount

/-- Claim C3 (amended): a successful `GenerateDungeonGrid(roomCount)` run
registers at most `roomCount` rooms, not always exactly `roomCount`: the
walker may re-accept an already-marked coarse cell (the guard only
rejects it when `countAdj ≥ 2`), and the duplicate collapses in the
`Rooms` set. -/
theorem claimC3 (roomCount : Int) (fuel : Nat) (d : Dungeon) (str : Streams)
    (res : Except GenError Unit × Dungeon × Streams)
    (h : GenerateDungeonGridAux roomCount fuel d str = some res)
    (hok : res.1 = Except.ok ()) (hrc : 0 ≤ roomCount) :
    (res.2.1.rooms.length : Int) ≤ roomCount := by
  obtain ⟨r1, d', s'⟩ := res
  cases hok
  exact dgAux_rooms roomCount hrc fuel d str d' s' h

set_option maxRecDepth 40000 in
/-- Claim C3, counterexample: on Scenario B's 80×80 configuration
(`cex3D`) with a stream that makes the walker oscillate between two
coarse cells, `GenerateDungeonGrid(10)` succeeds with `Rooms` holding 2
entries, not 10. -/
theorem claimC3_cex :
    (GenerateDungeonGridAux 10 12 cex3D ⟨[1, 0, 1, 0, 1, 0, 1, 0, 1, 0], []⟩).map
        (fun r => (r.1, r.2.1.rooms.length)) = some (Except.ok (), 2) ∧
      (2 : Nat) ≠ 10 :=
  ⟨rfl, by decide⟩

set_option maxRecDepth 40000 in
/-- Claim C3, witness: the oscillating run succeeds and its 2 rooms are
indeed at most the requested 10. -/
theorem claimC3_witness :
    GenerateDungeonGridAux 10 12 cex3D ⟨[1, 0, 1, 0, 1, 0, 1, 0, 1, 0], []⟩ =
        some c3res ∧
      c3res.1 = Except.ok () ∧ (0 : Int) ≤ 10 ∧
      (c3res.2.1.rooms.length : Int) ≤ 10 :=
  ⟨rfl, rfl, by decide,
    claimC3 10 12 cex3D ⟨[1, 0, 1, 0, 1, 0, 1, 0, 1, 0], []⟩ c3res rfl rfl (by decide)⟩

theorem flood_mono (d : Dungeon) (ct : DungeonTile) :
    ∀ (fuel : Nat) (m : List Rect) (x y : Int) (r : Rect),
      r ∈ m → r ∈ floodAux d ct fuel m x y
  | 0, _, _, _, _, hr => hr
  | Nat.succ fuel, m, x, y, r, hr => by
    simp only [floodAux]
    split
    · split
      · exact hr
      · exact flood_mono d ct fuel _ _ _ r (flood_mono d ct fuel _ _ _ r
          (flood_mono d ct fuel _ _ _ r (flood_mono d ct fuel _ _ _ r
            (List.mem_cons_of_mem _ hr))))
    · exact hr

theorem flood_nodup (d : Dungeon) (ct : DungeonTile) :
    ∀ (fuel : Nat) (m : List Rect) (x y : Int),
      m.Nodup → (floodAux d ct fuel m x y).Nodup
  | 0, _, _, _, hm => hm
  | Nat.succ fuel, m, x, y, hm => by
    simp only [floodAux]
    split
    · split
      · exact hm
      · rename_i hok hcm
        exact flood_nodup d ct fuel _ _ _ (flood_nodup d ct fuel _ _ _
          (flood_nodup d ct fuel _ _ _ (flood_nodup d ct fuel _ _ _
            (List.nodup_cons.mpr ⟨hcm, hm⟩))))
    · exact hm

theorem flood_start (d : Dungeon) (ct : DungeonTile) (fuel : Nat) (m : List Rect)
    (x y : Int) (hf : 0 < fuel) (hok : tileIs d x y ct = true) :
    (⟨x, y, 0, 0⟩ : Rect) ∈ floodAux d ct fuel m x y := by
  cases fuel with
  | zero => cases hf
  | succ fuel =>
    simp only [floodAux]
    rw [if_pos hok]
    by_cases hcm : (⟨x, y, 0, 0⟩ : Rect) ∈ m
    · rw [if_pos hcm]
      exact hcm
    · rw [if_neg hcm]
      exact flood_mono d ct fuel _ _ _ _ (flood_mono d ct fuel _ _ _ _
        (flood_mono d ct fuel _ _ _ _ (flood_mono d ct fuel _ _ _ _
          (List.mem_cons_self _ _))))

theorem reach_refl (d : Dungeon) (ct : DungeonTile) (p : Int × Int)
    (h : okCell d ct p) : Reach d ct p p :=
  ⟨h, Relation.ReflTransGen.refl⟩

theorem reach_head (d : Dungeon) (ct : DungeonTile) {p q r : Int × Int}
    (hok : okCell d ct p) (hadj : adjacent p q) (h : Reach d ct q r) :
    Reach d ct p r :=
  ⟨hok, Relation.ReflTransGen.head ⟨hadj, h.1⟩ h.2⟩

theorem reach_ok (d : Dungeon) (ct : DungeonTile) {p q : Int × Int}
    (h : Reach d ct p q) : okCell d ct q := by
  obtain ⟨hp, hpath⟩ := h
  induction hpath with
  | refl => exact hp
  | tail _ hstep _ => exact hstep.2

theorem flood_sound (d : Dungeon) (ct : DungeonTile) :
    ∀ (fuel : Nat) (m : List Rect) (x y : Int) (r : Rect),
      r ∈ floodAux d ct fuel m x y →
      r ∈ m ∨ ∃ p : Int × Int, r = keyOf p ∧ Reach d ct (x, y) p
  | 0, _, _, _, _, hr => Or.inl hr
  | Nat.succ fuel, m, x, y, r, hr => by
    simp only [floodAux] at hr
    split at hr
    · rename_i hok
      have hokc : okCell d ct (x, y) := hok
      split at hr
      · exact Or.inl hr
      · rcases flood_sound d ct fuel _ x (y - 1) r hr with h3 | ⟨p, hp, hre⟩
        · rcases flood_sound d ct fuel _ x (y + 1) r h3 with h2 | ⟨p, hp, hre⟩
          · rcases flood_sound d ct fuel _ (x - 1) y r h2 with h1 | ⟨p, hp, hre⟩
            · rcases flood_sound d ct fuel _ (x + 1) y r h1 with h0 | ⟨p, hp, hre⟩
              · rcases List.mem_cons.mp h0 with rfl | hm
                · exact Or.inr ⟨(x, y), rfl, reach_refl d ct _ hokc⟩
                · exact Or.inl hm
              · exact Or.inr ⟨p, hp, reach_head d ct hokc (Or.inl rfl) hre⟩
            · exact Or.inr ⟨p, hp, reach_head d ct hokc (Or.inr (Or.inl rfl)) hre⟩
          · exact Or.inr ⟨p, hp, reach_head d ct hokc (Or.inr (Or.inr (Or.inl rfl))) hre⟩
        · exact Or.inr ⟨p, hp, reach_head d ct hokc (Or.inr (Or.inr (Or.inr rfl))) hre⟩
    · exact Or.inl hr

theorem filter_length_mono {α : Type _} (p q : α → Bool)
    (himp : ∀ a, p a = true → q a = true) :
    ∀ l : List α, (l.filter p).length ≤ (l.filter q).length := by
  intro l
  induction l with
  | nil => exact Nat.le_refl _
  | cons a t ih =>
    by_cases hpa : p a = true
    · simp only [List.filter_cons, hpa, himp a hpa, if_pos]
      simpa using ih
    · simp only [List.filter_cons, Bool.not_eq_true] at hpa ⊢
      rw [hpa]
      simp only [Bool.false_eq_true, if_false]
      by_cases hqa : q a = true
      · rw [hqa]
        simp only [if_true, List.length_cons]
        omega
      · rw [Bool.not_eq_true] at hqa
        rw [hqa]
        simpa using ih

theorem filter_length_lt {α : Type _} (p q : α → Bool)
    (himp : ∀ a, p a = true → q a = true) (a0 : α) :
    ∀ l : List α, a0 ∈ l → q a0 = true → p a0 = false →
      (l.filter p).length < (l.filter q).length := by
  intro l
  induction l with
  | nil => intro h; cases h
  | cons b t ih =>
    intro hmem hq hp
    rcases List.mem_cons.mp hmem with rfl | hmem'
    · simp only [List.filter_cons, hp, hq, Bool.false_eq_true, if_false, if_true,
        List.length_cons]
      exact Nat.lt_succ_of_le (filter_length_mono p q himp t)
    · have ht := ih hmem' hq hp
      by_cases hpb : p b = true
      · simp only [List.filter_cons, hpb, himp b hpb, if_true, List.length_cons]
        omega
      · rw [Bool.not_eq_true] at hpb
        simp only [List.filter_cons, hpb, Bool.false_eq_true, if_false]
        by_cases hqb : q b = true
        · simp only [hqb, if_true, List.length_cons]
          omega
        · rw [Bool.not_eq_true] at hqb
          simp only [hqb, Bool.false_eq_true, if_false]
          exact ht

theorem missCount_le (d : Dungeon) (ct : DungeonTile) {m m' : List Rect}
    (h : ∀ r ∈ m, r ∈ m') : missCount d ct m' ≤ missCount d ct m := by
  unfold missCount
  refine filter_length_mono _ _ ?_ (okList d ct)
  intro a ha
  rw [decide_eq_true_iff] at ha ⊢
  exact fun hc => ha (h _ hc)

theorem okCell_not_outsideBand (d : Dungeon) (ct : DungeonTile) (p : Int × Int)
    (h : okCell d ct p) : ¬outsideBand d.width d.height d.border p.1 p.2 := by
  unfold okCell tileIs GetTile at h
  by_cases hb : outsideBand d.width d.height d.border p.1 p.2
  · rw [if_pos hb] at h
    cases h
  · exact hb

theorem okCell_mem_okList (d : Dungeon) (ct : DungeonTile) (p : Int × Int)
    (h : okCell d ct p) : p ∈ okList d ct := by
  have hband := okCell_not_outsideBand d ct p h
  unfold outsideBand at hband
  push_neg at hband
  unfold okList
  rw [List.mem_filter]
  refine ⟨?_, decide_eq_true h⟩
  rw [List.mem_flatMap]
  refine ⟨p.1, mem_intRange.mpr ⟨hband.2.1, hband.1⟩, ?_⟩
  rw [List.mem_map]
  exact ⟨p.2, mem_intRange.mpr ⟨hband.2.2.2, hband.2.2.1⟩, rfl⟩

theorem missCount_cons_lt (d : Dungeon) (ct : DungeonTile) (m : List Rect)
    {x y : Int} (hok : tileIs d x y ct = true)
    (hnm : (⟨x, y, 0, 0⟩ : Rect) ∉ m) :
    missCount d ct ((⟨x, y, 0, 0⟩ : Rect) :: m) < missCount d ct m := by
  unfold missCount
  refine filter_length_lt _ _ ?_ ((x, y) : Int × Int) (okList d ct)
    (okCell_mem_okList d ct _ hok) ?_ ?_
  · intro a ha
    rw [decide_eq_true_iff] at ha ⊢
    exact fun hc => ha (List.mem_cons_of_mem _ hc)
  · rw [decide_eq_true_iff]
    exact hnm
  · rw [decide_eq_false_iff_not]
    intro hc
    exact hc (List.mem_cons_self _ _)

theorem flood_closed (d : Dungeon) (ct : DungeonTile) :
    ∀ (fuel : Nat) (m : List Rect) (x y : Int),
      missCount d ct m < fuel →
      ∀ p : Int × Int, keyOf p ∈ floodAux d ct fuel m x y → keyOf p ∉ m →
        okCell d ct p ∧
          ∀ q : Int × Int, adjacent p q → okCell d ct q →
            keyOf q ∈ floodAux d ct fuel m x y := by
  intro fuel
  induction fuel with
  | zero =>
    intro m x y hf p hp hpm
    exact absurd hf (Nat.not_lt_zero _)
  | succ fuel ih =>
    intro m x y hf p hp hpm
    by_cases hok : tileIs d x y ct = true
    · simp only [floodAux] at hp ⊢
      rw [if_pos hok] at hp ⊢
      by_cases hcm : (⟨x, y, 0, 0⟩ : Rect) ∈ m
      · rw [if_pos hcm] at hp ⊢
        exact absurd hp hpm
      · rw [if_neg hcm] at hp ⊢
        have hfc : missCount d ct ((⟨x, y, 0, 0⟩ : Rect) :: m) < fuel := by
          have := missCount_cons_lt d ct m hok hcm
          omega
        have hmono1 : ∀ r ∈ ((⟨x, y, 0, 0⟩ : Rect) :: m),
            r ∈ floodAux d ct fuel ((⟨x, y, 0, 0⟩ : Rect) :: m) (x + 1) y :=
          fun r hr => flood_mono d ct fuel _ _ _ r hr
        have hf1 : missCount d ct
            (floodAux d ct fuel ((⟨x, y, 0, 0⟩ : Rect) :: m) (x + 1) y) < fuel :=
          lt_of_le_of_lt (missCount_le d ct hmono1) hfc
        have hmono2 : ∀ r ∈ floodAux d ct fuel ((⟨x, y, 0, 0⟩ : Rect) :: m) (x + 1) y,
            r ∈ floodAux d ct fuel
              (floodAux d ct fuel ((⟨x, y, 0, 0⟩ : Rect) :: m) (x + 1) y) (x - 1) y :=
          fun r hr => flood_mono d ct fuel _ _ _ r hr
        have hf2 := lt_of_le_of_lt (missCount_le d ct hmono2) hf1
        have hmono3 : ∀ r ∈ floodAux d ct fuel
              (floodAux d ct fuel ((⟨x, y, 0, 0⟩ : Rect) :: m) (x + 1) y) (x - 1) y,
            r ∈ floodAux d ct fuel (floodAux d ct fuel
              (floodAux d ct fuel ((⟨x, y, 0, 0⟩ : Rect) :: m) (x + 1) y) (x - 1) y)
              x (y + 1) :=
          fun r hr => flood_mono d ct fuel _ _ _ r hr
        have hf3 := lt_of_le_of_lt (missCount_le d ct hmono3) hf2
        have hmono4 : ∀ r ∈ floodAux d ct fuel (floodAux d ct fuel
              (floodAux d ct fuel ((⟨x, y, 0, 0⟩ : Rect) :: m) (x + 1) y) (x - 1) y)
              x (y + 1),
            r ∈ floodAux d ct fuel (floodAux d ct fuel (floodAux d ct fuel
              (floodAux d ct fuel ((⟨x, y, 0, 0⟩ : Rect) :: m) (x + 1) y) (x - 1) y)
              x (y + 1)) x (y - 1) :=
          fun r hr => flood_mono d ct fuel _ _ _ r hr
        have hfuelpos : 0 < fuel := by omega
        by_cases hpc : keyOf p = (⟨x, y, 0, 0⟩ : Rect)
        · -- p is the start cell itself
          have hpxy : p = (x, y) := by
            unfold keyOf at hpc
            have h1 := congrArg Rect.x hpc
            have h2 := congrArg Rect.y hpc
            simp at h1 h2
            exact Prod.ext h1 h2
          subst hpxy
          refine ⟨hok, fun q hadj hokq => ?_⟩
          rcases hadj with rfl | rfl | rfl | rfl
          · exact hmono4 _ (hmono3 _ (hmono2 _
              (flood_start d ct fuel _ _ _ hfuelpos hokq)))
          · exact hmono4 _ (hmono3 _
              (flood_start d ct fuel _ _ _ hfuelpos hokq))
          · exact hmono4 _ (flood_start d ct fuel _ _ _ hfuelpos hokq)
          · exact flood_start d ct fuel _ _ _ hfuelpos hokq
        · have hpm1 : keyOf p ∉ ((⟨x, y, 0, 0⟩ : Rect) :: m) := by
            intro hc
            rcases List.mem_cons.mp hc with h1 | h1
            · exact hpc h1
            · exact hpm h1
          by_cases h1 : keyOf p ∈ floodAux d ct fuel ((⟨x, y, 0, 0⟩ : Rect) :: m)
              (x + 1) y
          · obtain ⟨hokp, hnb⟩ := ih _ (x + 1) y hfc p h1 hpm1
            exact ⟨hokp, fun q hadj hokq =>
              hmono4 _ (hmono3 _ (hmono2 _ (hnb q hadj hokq)))⟩
          · by_cases h2 : keyOf p ∈ floodAux d ct fuel
                (floodAux d ct fuel ((⟨x, y, 0, 0⟩ : Rect) :: m) (x + 1) y) (x - 1) y
            · obtain ⟨hokp, hnb⟩ := ih _ (x - 1) y hf1 p h2 h1
              exact ⟨hokp, fun q hadj hokq => hmono4 _ (hmono3 _ (hnb q hadj hokq))⟩
            · by_cases h3 : keyOf p ∈ floodAux d ct fuel (floodAux d ct fuel
                  (floodAux d ct fuel ((⟨x, y, 0, 0⟩ : Rect) :: m) (x + 1) y)
                  (x - 1) y) x (y + 1)
              · obtain ⟨hokp, hnb⟩ := ih _ x (y + 1) hf2 p h3 h2
                exact ⟨hokp, fun q hadj hokq => hmono4 _ (hnb q hadj hokq)⟩
              · obtain ⟨hokp, hnb⟩ := ih _ x (y - 1) hf3 p hp h3
                exact ⟨hokp, fun q hadj hokq => hnb q hadj hokq⟩
    · simp only [floodAux] at hp
      rw [if_neg hok] at hp
      exact absurd hp hpm

theorem flood_reach_mem (d : Dungeon) (ct : DungeonTile) (fuel : Nat) (x y : Int)
    (hf : missCount d ct [] < fuel) :
    ∀ q : Int × Int, Reach d ct (x, y) q → keyOf q ∈ floodAux d ct fuel [] x y := by
  intro q hq
  obtain ⟨hok, hpath⟩ := hq
  induction hpath with
  | refl => exact flood_start d ct fuel [] x y (by omega) hok
  | tail h1 hstep ih =>
    obtain ⟨hadj, hokc⟩ := hstep
    have hcb := flood_closed d ct fuel [] x y hf _ ih (List.not_mem_nil _)
    exact hcb.2 _ hadj hokc

theorem flood_exact (d : Dungeon) (ct : DungeonTile) (fuel : Nat) (x y : Int)
    (hf : missCount d ct [] < fuel) (r : Rect) :
    r ∈ floodAux d ct fuel [] x y ↔
      ∃ p : Int × Int, r = keyOf p ∧ Reach d ct (x, y) p := by
  constructor
  · intro hr
    rcases flood_sound d ct fuel [] x y r hr with h | h
    · exact absurd h (List.not_mem_nil r)
    · exact h
  · rintro ⟨p, rfl, hre⟩
    exact flood_reach_mem d ct fuel x y hf p hre

theorem adjacent_symm {p q : Int × Int} (h : adjacent p q) : adjacent q p := by
  obtain ⟨px, py⟩ := p
  obtain ⟨qx, qy⟩ := q
  unfold adjacent at h ⊢
  rcases h with h | h | h | h <;>
    [exact Or.inr (Or.inl (by rw [Prod.mk.injEq] at h ⊢; omega));
     exact Or.inl (by rw [Prod.mk.injEq] at h ⊢; omega);
     exact Or.inr (Or.inr (Or.inr (by rw [Prod.mk.injEq] at h ⊢; omega)));
     exact Or.inr (Or.inr (Or.inl (by rw [Prod.mk.injEq] at h ⊢; omega)))]

theorem reach_trans (d : Dungeon) (ct : DungeonTile) {p q r : Int × Int}
    (h1 : Reach d ct p q) (h2 : Reach d ct q r) : Reach d ct p r :=
  ⟨h1.1, Relation.ReflTransGen.trans h1.2 h2.2⟩

theorem reach_symm (d : Dungeon) (ct : DungeonTile) {p q : Int × Int}
    (h : Reach d ct p q) : Reach d ct q p := by
  obtain ⟨hp, hpath⟩ := h
  induction hpath with
  | refl => exact ⟨hp, Relation.ReflTransGen.refl⟩
  | tail h1 hstep ih =>
    obtain ⟨hadj, hokc⟩ := hstep
    have hokb : okCell d ct _ := reach_ok d ct ⟨hp, h1⟩
    exact reach_trans d ct ⟨hokc, Relation.ReflTransGen.single ⟨adjacent_symm hadj, hokb⟩⟩ ih

theorem nodup_length_eq_of_mem_iff {α : Type _} [DecidableEq α] {l1 l2 : List α}
    (h1 : l1.Nodup) (h2 : l2.Nodup) (h : ∀ a, a ∈ l1 ↔ a ∈ l2) :
    l1.length = l2.length := by
  rw [← List.toFinset_card_of_nodup h1, ← List.toFinset_card_of_nodup h2]
  congr 1
  ext a
  rw [List.mem_toFinset, List.mem_toFinset]
  exact h a

theorem length_flatMap_map {α β γ : Type _} (f : α → β → γ) (ys : List β) :
    ∀ xs : List α, (xs.flatMap (fun x => ys.map (f x))).length =
      xs.length * ys.length
  | [] => by simp
  | a :: t => by
    rw [List.flatMap_cons, List.length_append, List.length_map,
      length_flatMap_map f ys t, List.length_cons]
    ring

theorem okList_length_le (d : Dungeon) (ct : DungeonTile) (hb : 0 ≤ d.border) :
    (okList d ct).length ≤ d.width.toNat * d.height.toNat := by
  unfold okList
  refine le_trans (List.length_filter_le _ _) ?_
  rw [length_flatMap_map]
  rw [length_intRange, length_intRange]
  have hw : (d.width - d.border - d.border).toNat ≤ d.width.toNat := by omega
  have hh : (d.height - d.border - d.border).toNat ≤ d.height.toNat := by omega
  exact Nat.mul_le_mul hw hh

theorem missCount_nil_lt (d : Dungeon) (ct : DungeonTile) (hb : 0 ≤ d.border) :
    missCount d ct [] < d.width.toNat * d.height.toNat + 1 := by
  unfold missCount
  have h1 := List.length_filter_le (fun p => decide (keyOf p ∉ ([] : List Rect)))
    (okList d ct)
  have h2 := okList_length_le d ct hb
  omega

theorem okCell_iff (d : Dungeon) (ct : DungeonTile) (p : Int × Int) :
    okCell d ct p ↔ ¬outsideBand d.width d.height d.border p.1 p.2 ∧
      getRaw d.tiles p.1 p.2 = ct := by
  unfold okCell tileIs GetTile
  by_cases hb : outsideBand d.width d.height d.border p.1 p.2
  · rw [if_pos hb]
    simp [hb]
  · rw [if_neg hb]
    simp [hb]

theorem setTile_floor_self {d : Dungeon} (hdims : TilesDims d.width d.height d.tiles)
    (hb : 0 ≤ d.border) {x y : Int}
    (hband : ¬outsideBand d.width d.height d.border x y) :
    getRaw ((SetTile d x y DungeonTile.floor).2).tiles x y = DungeonTile.floor := by
  rw [SetTile_tiles_eq, if_neg (by tauto)]
  unfold outsideBand at hband
  push_neg at hband
  have hy : y.toNat < d.tiles.length := by
    rw [hdims.1]
    omega
  have hrow : (d.tiles.getD y.toNat []).length = d.width.toNat := by
    rw [List.getD_eq_getElem d.tiles [] hy]
    exact hdims.2 _ (List.getElem_mem hy)
  exact getRaw_setRaw_self d.tiles x y DungeonTile.floor (by omega) (by omega) hy
    (by rw [hrow]; omega)

theorem removeIsland_cfg (m : List Rect) (a : Dungeon) :
    (removeIsland m a).width = a.width ∧ (removeIsland m a).height = a.height ∧
      (removeIsland m a).border = a.border ∧
      (removeIsland m a).minIslandSize = a.minIslandSize ∧
      (TilesDims a.width a.height a.tiles →
        TilesDims a.width a.height (removeIsland m a).tiles) := by
  unfold removeIsland
  refine foldlPreserve (fun (x : Dungeon) => x.width = a.width ∧ x.height = a.height ∧
    x.border = a.border ∧ x.minIslandSize = a.minIslandSize ∧
    (TilesDims a.width a.height a.tiles → TilesDims a.width a.height x.tiles))
    _ _ _ ?_ ⟨rfl, rfl, rfl, rfl, fun h => h⟩
  intro a2 co _ ha2
  obtain ⟨h1, h2, h3, h4, h5⟩ := ha2
  refine ⟨?_, ?_, ?_, ?_, fun h => ?_⟩
  · rw [SetTile_snd]
    exact h1
  · rw [SetTile_snd]
    exact h2
  · rw [SetTile_snd]
    exact h3
  · rw [SetTile_snd]
    exact h4
  · exact SetTile_dims co.x co.y DungeonTile.floor (h5 h)

theorem removeIsland_keeps_floor : ∀ (m : List Rect) (a : Dungeon) (u v : Int),
    getRaw a.tiles u v = DungeonTile.floor →
    getRaw (removeIsland m a).tiles u v = DungeonTile.floor
  | [], _, _, _, h => h
  | c :: rest, a, u, v, h => by
    show getRaw (removeIsland rest (SetTile a c.x c.y DungeonTile.floor).2).tiles u v = _
    apply removeIsland_keeps_floor rest
    rcases setTile_floor_cell a c.x c.y u v with h1 | h1
    · rw [h1]
      exact h
    · exact h1.2

theorem removeIsland_member_floor : ∀ (m : List Rect) (a : Dungeon) (u v : Int),
    TilesDims a.width a.height a.tiles → 0 ≤ a.border →
    ¬outsideBand a.width a.height a.border u v →
    (∃ c ∈ m, c.x = u ∧ c.y = v) →
    getRaw (removeIsland m a).tiles u v = DungeonTile.floor
  | [], _, _, _, _, _, _, hex => by
    rcases hex with ⟨c, hc, _⟩
    cases hc
  | c :: rest, a, u, v, hdims, hb, hband, hex => by
    show getRaw (removeIsland rest (SetTile a c.x c.y DungeonTile.floor).2).tiles u v = _
    rcases hex with ⟨c0, hc0, hcu, hcv⟩
    rcases List.mem_cons.mp hc0 with rfl | hmem
    · apply removeIsland_keeps_floor
      subst hcu
      subst hcv
      exact setTile_floor_self hdims hb hband
    · refine removeIsland_member_floor rest _ u v ?_ ?_ ?_ ⟨c0, hmem, hcu, hcv⟩
      · rw [SetTile_snd]
        exact SetTile_dims c.x c.y DungeonTile.floor hdims
      · rw [SetTile_snd]
        exact hb
      · rw [SetTile_snd]
        exact hband

theorem removeIsland_unchanged : ∀ (m : List Rect) (a : Dungeon) (u v : Int),
    (∀ c ∈ m, ¬(c.x = u ∧ c.y = v)) →
    getRaw (removeIsland m a).tiles u v = getRaw a.tiles u v
  | [], _, _, _, _ => rfl
  | c :: rest, a, u, v, h => by
    show getRaw (removeIsland rest (SetTile a c.x c.y DungeonTile.floor).2).tiles u v = _
    rw [removeIsland_unchanged rest _ u v (fun c' hc' => h c' (List.mem_cons_of_mem _ hc'))]
    have hne : u ≠ c.x ∨ v ≠ c.y := by
      have := h c (List.mem_cons_self _ _)
      tauto
    rcases SetTile_tiles_or a c.x c.y DungeonTile.floor with ht | ht
    · rw [ht]
    · rw [ht, getRaw_setRaw_ne _ _ _ _ _ _ hne]

theorem key_eq_of_coords {c : Rect} {p : Int × Int} (hx : c.x = p.1) (hy : c.y = p.2)
    (hw : c.w = 0) (hh : c.h = 0) : c = keyOf p := by
  obtain ⟨cx, cy, cw, ch⟩ := c
  unfold keyOf
  simp_all

theorem okCell_removeIsland (m : List Rect) (a : Dungeon)
    (hdims : TilesDims a.width a.height a.tiles) (hb : 0 ≤ a.border)
    (hwh : ∀ c ∈ m, c.w = 0 ∧ c.h = 0) (p : Int × Int) :
    okCell (removeIsland m a) DungeonTile.void p ↔
      (okCell a DungeonTile.void p ∧ keyOf p ∉ m) := by
  obtain ⟨hW, hH, hB, _, _⟩ := removeIsland_cfg m a
  rw [okCell_iff, okCell_iff, hW, hH, hB]
  have hcoords : keyOf p ∉ m → ∀ c ∈ m, ¬(c.x = p.1 ∧ c.y = p.2) := by
    intro hm c hc hcp
    obtain ⟨hw0, hh0⟩ := hwh c hc
    exact hm (key_eq_of_coords hcp.1 hcp.2 hw0 hh0 ▸ hc)
  constructor
  · rintro ⟨hband, hvoid⟩
    by_cases hm : keyOf p ∈ m
    · have hfl := removeIsland_member_floor m a p.1 p.2 hdims hb hband
        ⟨keyOf p, hm, rfl, rfl⟩
      rw [hfl] at hvoid
      cases hvoid
    · rw [removeIsland_unchanged m a p.1 p.2 (hcoords hm)] at hvoid
      exact ⟨⟨hband, hvoid⟩, hm⟩
  · rintro ⟨⟨hband, hvoid⟩, hm⟩
    refine ⟨hband, ?_⟩
    rw [removeIsland_unchanged m a p.1 p.2 (hcoords hm)]
    exact hvoid

theorem reach_removeIsland_fwd (m : List Rect) (a : Dungeon)
    (hdims : TilesDims a.width a.height a.tiles) (hb : 0 ≤ a.border)
    (hwh : ∀ c ∈ m, c.w = 0 ∧ c.h = 0) {p q : Int × Int}
    (h : Reach (removeIsland m a) DungeonTile.void p q) :
    Reach a DungeonTile.void p q := by
  obtain ⟨hp, hpath⟩ := h
  refine ⟨((okCell_removeIsland m a hdims hb hwh p).mp hp).1, ?_⟩
  refine Relation.ReflTransGen.mono ?_ hpath
  intro u v huv
  exact ⟨huv.1, ((okCell_removeIsland m a hdims hb hwh v).mp huv.2).1⟩

theorem reach_removeIsland_bwd (m : List Rect) (a : Dungeon)
    (hdims : TilesDims a.width a.height a.tiles) (hb : 0 ≤ a.border)
    (hwh : ∀ c ∈ m, c.w = 0 ∧ c.h = 0)
    (hmcl : ∀ c ∈ m, ∀ q, adjacent (c.x, c.y) q →
      okCell a DungeonTile.void q → keyOf q ∈ m)
    {p : Int × Int} (hpo : okCell a DungeonTile.void p) (hpm : keyOf p ∉ m) :
    ∀ q, Reach a DungeonTile.void p q →
      Reach (removeIsland m a) DungeonTile.void p q ∧ keyOf q ∉ m := by
  intro q hq
  obtain ⟨_, hpath⟩ := hq
  induction hpath with
  | refl =>
    exact ⟨⟨(okCell_removeIsland m a hdims hb hwh p).mpr ⟨hpo, hpm⟩,
      Relation.ReflTransGen.refl⟩, hpm⟩
  | @tail b c h1 hstep ih =>
    obtain ⟨hadj, hokc⟩ := hstep
    obtain ⟨hreach', hbm⟩ := ih
    have hokb : okCell a DungeonTile.void b := reach_ok a DungeonTile.void ⟨hpo, h1⟩
    have hcm : keyOf c ∉ m := by
      intro hc
      exact hbm (hmcl (keyOf c) hc b (adjacent_symm hadj) hokb)
    exact ⟨⟨hreach'.1, hreach'.2.tail
      ⟨hadj, (okCell_removeIsland m a hdims hb hwh c).mpr ⟨hokc, hcm⟩⟩⟩, hcm⟩

theorem flood_props (d : Dungeon) (ct : DungeonTile) (fuel : Nat) (x y : Int)
    (hf : missCount d ct [] < fuel) :
    ∀ c ∈ floodAux d ct fuel [] x y, (c.w = 0 ∧ c.h = 0) ∧
      okCell d ct (c.x, c.y) ∧
      ∀ q, adjacent (c.x, c.y) q → okCell d ct q →
        keyOf q ∈ floodAux d ct fuel [] x y := by
  intro c hc
  rcases (flood_exact d ct fuel x y hf c).mp hc with ⟨p, rfl, hre⟩
  refine ⟨⟨rfl, rfl⟩, reach_ok d ct hre, ?_⟩
  intro q hadj hokq
  rw [flood_exact d ct fuel x y hf]
  exact ⟨q, rfl, reach_trans d ct hre
    ⟨reach_ok d ct hre, Relation.ReflTransGen.single ⟨hadj, hokq⟩⟩⟩

theorem count_removeIsland (m : List Rect) (a : Dungeon)
    (hdims : TilesDims a.width a.height a.tiles) (hb : 0 ≤ a.border)
    (hwh : ∀ c ∈ m, c.w = 0 ∧ c.h = 0)
    (hmcl : ∀ c ∈ m, ∀ q, adjacent (c.x, c.y) q →
      okCell a DungeonTile.void q → keyOf q ∈ m)
    {p : Int × Int} (hpo : okCell a DungeonTile.void p) (hpm : keyOf p ∉ m) :
    (countIslandPolar (removeIsland m a) p.1 p.2 DungeonTile.void).1 =
      (countIslandPolar a p.1 p.2 DungeonTile.void).1 := by
  obtain ⟨hW, hH, hB, _, hD⟩ := removeIsland_cfg m a
  simp only [countIslandPolar]
  have hba : 0 ≤ (removeIsland m a).border := by
    rw [hB]
    exact hb
  have hf1 : missCount (removeIsland m a) DungeonTile.void [] <
      (removeIsland m a).width.toNat * (removeIsland m a).height.toNat + 1 :=
    missCount_nil_lt _ _ hba
  have hf2 : missCount a DungeonTile.void [] <
      a.width.toNat * a.height.toNat + 1 :=
    missCount_nil_lt _ _ hb
  have hlen : (floodAux (removeIsland m a) DungeonTile.void
      ((removeIsland m a).width.toNat * (removeIsland m a).height.toNat + 1)
      [] p.1 p.2).length =
      (floodAux a DungeonTile.void (a.width.toNat * a.height.toNat + 1)
        [] p.1 p.2).length := by
    refine nodup_length_eq_of_mem_iff
      (flood_nodup _ _ _ _ _ _ List.nodup_nil)
      (flood_nodup _ _ _ _ _ _ List.nodup_nil) ?_
    intro r
    rw [flood_exact _ _ _ _ _ hf1, flood_exact _ _ _ _ _ hf2]
    constructor
    · rintro ⟨q, rfl, hre⟩
      exact ⟨q, rfl, reach_removeIsland_fwd m a hdims hb hwh hre⟩
    · rintro ⟨q, rfl, hre⟩
      exact ⟨q, rfl, (reach_removeIsland_bwd m a hdims hb hwh hmcl hpo hpm q hre).1⟩
  exact_mod_cast hlen

theorem count_eq_of_reach (a : Dungeon) (hba : 0 ≤ a.border) {p q : Int × Int}
    (hre : Reach a DungeonTile.void p q) :
    (countIslandPolar a q.1 q.2 DungeonTile.void).1 =
      (countIslandPolar a p.1 p.2 DungeonTile.void).1 := by
  simp only [countIslandPolar]
  have hf := missCount_nil_lt a DungeonTile.void hba
  have hlen : (floodAux a DungeonTile.void (a.width.toNat * a.height.toNat + 1)
      [] q.1 q.2).length =
      (floodAux a DungeonTile.void (a.width.toNat * a.height.toNat + 1)
        [] p.1 p.2).length := by
    refine nodup_length_eq_of_mem_iff
      (flood_nodup _ _ _ _ _ _ List.nodup_nil)
      (flood_nodup _ _ _ _ _ _ List.nodup_nil) ?_
    intro r
    rw [flood_exact _ _ _ _ _ hf, flood_exact _ _ _ _ _ hf]
    constructor
    · rintro ⟨s, rfl, hrs⟩
      exact ⟨s, rfl, reach_trans a _ hre hrs⟩
    · rintro ⟨s, rfl, hrs⟩
      exact ⟨s, rfl, reach_trans a _ (reach_symm a _ hre) hrs⟩
  exact_mod_cast hlen

theorem cleanIslandsStep_master (d : Dungeon) (hb : 0 ≤ d.border)
    (st : Dungeon × List (List Rect)) (x y : Int) (hq : IslQ d st) :
    IslQ d (cleanIslandsStep st x y) ∧
      (∀ u v : Int, BigAt st.1 u v → BigAt (cleanIslandsStep st x y).1 u v) ∧
      BigAt (cleanIslandsStep st x y).1 x y := by
  obtain ⟨hW, hH, hB, hMin, hDims, hRec⟩ := hq
  have hbst : 0 ≤ st.1.border := by rw [hB]; exact hb
  have hdimsst : TilesDims st.1.width st.1.height st.1.tiles := by
    rw [hW, hH]; exact hDims
  by_cases hfound : st.2.any (fun i => decide ((⟨x, y, 0, 0⟩ : Rect) ∈ i)) = true
  · have hstep : cleanIslandsStep st x y = st := by
      simp only [cleanIslandsStep]
      rw [if_pos hfound]
    rw [hstep]
    refine ⟨⟨hW, hH, hB, hMin, hDims, hRec⟩, fun u v h => h, ?_⟩
    rcases List.any_eq_true.mp hfound with ⟨i, hi, hci⟩
    rw [decide_eq_true_iff] at hci
    exact hRec i hi _ hci
  · have hmiss := missCount_nil_lt st.1 DungeonTile.void hbst
    have hprops := flood_props st.1 DungeonTile.void
      (st.1.width.toNat * st.1.height.toNat + 1) x y hmiss
    have hm2 : (countIslandPolar st.1 x y DungeonTile.void).2 =
        floodAux st.1 DungeonTile.void
          (st.1.width.toNat * st.1.height.toNat + 1) [] x y := rfl
    have hwh : ∀ c ∈ (countIslandPolar st.1 x y DungeonTile.void).2,
        c.w = 0 ∧ c.h = 0 := by
      rw [hm2]
      exact fun c hc => (hprops c hc).1
    have hmcl : ∀ c ∈ (countIslandPolar st.1 x y DungeonTile.void).2,
        ∀ q, adjacent (c.x, c.y) q → okCell st.1 DungeonTile.void q →
          keyOf q ∈ (countIslandPolar st.1 x y DungeonTile.void).2 := by
      rw [hm2]
      exact fun c hc => (hprops c hc).2.2
    have hsound : ∀ c ∈ (countIslandPolar st.1 x y DungeonTile.void).2,
        okCell st.1 DungeonTile.void (c.x, c.y) ∧
          Reach st.1 DungeonTile.void (x, y) (c.x, c.y) := by
      rw [hm2]
      intro c hc
      rcases (flood_exact st.1 DungeonTile.void _ x y hmiss c).mp hc with ⟨p, rfl, hre⟩
      exact ⟨reach_ok st.1 _ hre, hre⟩
    by_cases hsmall : (countIslandPolar st.1 x y DungeonTile.void).1 <
        st.1.minIslandSize
    · -- small island: it is removed whole
      have hstep : cleanIslandsStep st x y =
          (removeIsland (countIslandPolar st.1 x y DungeonTile.void).2 st.1,
            st.2 ++ [(countIslandPolar st.1 x y DungeonTile.void).2]) := by
        simp only [cleanIslandsStep]
        rw [if_neg hfound, if_pos hsmall]
        rfl
      rw [hstep]
      obtain ⟨hW2, hH2, hB2, hMin2, hD2⟩ :=
        removeIsland_cfg (countIslandPolar st.1 x y DungeonTile.void).2 st.1
      have hok_iff := okCell_removeIsland
        (countIslandPolar st.1 x y DungeonTile.void).2 st.1 hdimsst hbst hwh
      have hcount := fun (p : Int × Int) hpo hpm => count_removeIsland
        (countIslandPolar st.1 x y DungeonTile.void).2 st.1 hdimsst hbst hwh hmcl
        (p := p) hpo hpm
      have hbig : ∀ u v : Int, BigAt st.1 u v → BigAt
          (removeIsland (countIslandPolar st.1 x y DungeonTile.void).2 st.1) u v := by
        intro u v hbase hok2
        obtain ⟨hok1, hnm⟩ := (hok_iff (u, v)).mp hok2
        rw [hMin2, hcount (u, v) hok1 hnm]
        exact hbase hok1
      refine ⟨⟨hW2.trans hW, hH2.trans hH, hB2.trans hB, hMin2.trans hMin,
        by rw [← hW, ← hH]; exact hD2 hdimsst, ?_⟩, hbig, ?_⟩
      · intro i hi c hc
        rcases List.mem_append.mp hi with hi1 | hi1
        · exact hbig c.x c.y (hRec i hi1 c hc)
        · rw [List.mem_singleton] at hi1
          subst hi1
          intro hok2
          obtain ⟨hok1, hnm⟩ := (hok_iff (c.x, c.y)).mp hok2
          obtain ⟨hw0, hh0⟩ := hwh c hc
          exact absurd (key_eq_of_coords (p := (c.x, c.y)) rfl rfl hw0 hh0 ▸ hc) hnm
      · intro hok2
        obtain ⟨hok1, hnm⟩ := (hok_iff (x, y)).mp hok2
        have hstart : (⟨x, y, 0, 0⟩ : Rect) ∈
            (countIslandPolar st.1 x y DungeonTile.void).2 := by
          rw [hm2]
          exact flood_start st.1 DungeonTile.void _ [] x y (by omega) hok1
        exact absurd hstart hnm
    · -- island kept: the grid does not change
      have hstep : cleanIslandsStep st x y =
          (st.1, st.2 ++ [(countIslandPolar st.1 x y DungeonTile.void).2]) := by
        simp only [cleanIslandsStep]
        rw [if_neg hfound, if_neg hsmall]
      rw [hstep]
      refine ⟨⟨hW, hH, hB, hMin, hDims, ?_⟩, fun u v h => h, fun _ => by
        show st.1.minIslandSize ≤ (countIslandPolar st.1 x y DungeonTile.void).1
        omega⟩
      intro i hi c hc
      rcases List.mem_append.mp hi with hi1 | hi1
      · exact hRec i hi1 c hc
      · rw [List.mem_singleton] at hi1
        subst hi1
        intro hok1
        have hre := (hsound c hc).2
        have h2 : (countIslandPolar st.1 c.x c.y DungeonTile.void).1 =
            (countIslandPolar st.1 x y DungeonTile.void).1 :=
          count_eq_of_reach st.1 hbst hre
        show st.1.minIslandSize ≤ (countIslandPolar st.1 c.x c.y DungeonTile.void).1
        rw [h2]
        omega

theorem flood_nonok_nil (d : Dungeon) (ct : DungeonTile) (x y : Int)
    (h : ¬tileIs d x y ct = true) :
    ∀ fuel : Nat, floodAux d ct fuel [] x y = []
  | 0 => rfl
  | Nat.succ fuel => by
    simp only [floodAux]
    rw [if_neg h]

theorem cleanIslands_bigIslands (d : Dungeon) (hb : 0 ≤ d.border)
    (hdims : TilesDims d.width d.height d.tiles) (x y : Int)
    (hok : okCell (CleanIslands d) DungeonTile.void (x, y)) :
    (CleanIslands d).minIslandSize ≤
      (countIslandPolar (CleanIslands d) x y DungeonTile.void).1 := by
  obtain ⟨hW, hH, hB, _⟩ := cleanIslands_frameGeom d 0 0
  have hband := ((okCell_iff _ _ _).mp hok).1
  rw [hW, hH, hB] at hband
  unfold outsideBand at hband
  push_neg at hband
  have hxmem : x ∈ intRange 0 d.width := mem_intRange.mpr ⟨by omega, by omega⟩
  have hymem : y ∈ intRange 0 d.height := mem_intRange.mpr ⟨by omega, by omega⟩
  have hQstep : ∀ (st : Dungeon × List (List Rect)) (xx : Int), IslQ d st →
      IslQ d ((intRange 0 d.height).foldl
        (fun st2 yy => cleanIslandsStep st2 xx yy) st) :=
    fun st xx hq => foldlPreserve (IslQ d) _ _ _
      (fun st2 yy _ hq2 => (cleanIslandsStep_master d hb st2 xx yy hq2).1) hq
  have hest : ∀ (st : Dungeon × List (List Rect)) (xx : Int), IslQ d st →
      ∀ yy ∈ intRange 0 d.height,
        BigAt ((intRange 0 d.height).foldl
          (fun st2 yy => cleanIslandsStep st2 xx yy) st).1 xx yy :=
    fun st xx hq =>
      foldlProcessed (IslQ d) (fun st2 yy => BigAt st2.1 xx yy)
        (fun st2 yy => cleanIslandsStep st2 xx yy)
        (fun st2 yy hq2 => (cleanIslandsStep_master d hb st2 xx yy hq2).1)
        (fun st2 yy hq2 => (cleanIslandsStep_master d hb st2 xx yy hq2).2.2)
        (fun st2 yy yy' hq2 hp =>
          (cleanIslandsStep_master d hb st2 xx yy' hq2).2.1 xx yy hp)
        (intRange 0 d.height) st hq
  have hmono : ∀ (st : Dungeon × List (List Rect)) (xx xx' : Int), IslQ d st →
      (∀ yy ∈ intRange 0 d.height, BigAt st.1 xx yy) →
      ∀ yy ∈ intRange 0 d.height,
        BigAt ((intRange 0 d.height).foldl
          (fun st2 yy => cleanIslandsStep st2 xx' yy) st).1 xx yy := by
    intro st xx xx' hq hp
    have h := foldlPreserve (fun (st2 : Dungeon × List (List Rect)) =>
        IslQ d st2 ∧ ∀ yy ∈ intRange 0 d.height, BigAt st2.1 xx yy)
      (fun st2 yy => cleanIslandsStep st2 xx' yy) (intRange 0 d.height) st
      (fun st2 yy _ h2 => ⟨(cleanIslandsStep_master d hb st2 xx' yy h2.1).1,
        fun yy2 hyy2 =>
          (cleanIslandsStep_master d hb st2 xx' yy h2.1).2.1 xx yy2 (h2.2 yy2 hyy2)⟩)
      ⟨hq, hp⟩
    exact h.2
  have hfinal := foldlProcessed (IslQ d)
    (fun (st : Dungeon × List (List Rect)) (xx : Int) =>
      ∀ yy ∈ intRange 0 d.height, BigAt st.1 xx yy)
    (fun st xx => (intRange 0 d.height).foldl
      (fun st2 yy => cleanIslandsStep st2 xx yy) st)
    hQstep hest hmono (intRange 0 d.width) (d, [])
    ⟨rfl, rfl, rfl, rfl, hdims, fun i hi => absurd hi (List.not_mem_nil i)⟩
    x hxmem
  exact hfinal y hymem hok

theorem cleanIslands_id (a : Dungeon) (hbig : ∀ x y : Int, BigAt a x y) :
    CleanIslands a = a := by
  unfold CleanIslands
  have h := foldlPreserve (fun (st : Dungeon × List (List Rect)) => st.1 = a)
    (fun st x => (intRange 0 a.height).foldl
      (fun st2 y => cleanIslandsStep st2 x y) st)
    (intRange 0 a.width) (a, []) ?_ rfl
  · exact h
  · intro st x _ hst
    refine foldlPreserve (fun (st2 : Dungeon × List (List Rect)) => st2.1 = a)
      _ _ _ ?_ hst
    intro st2 y _ hst2
    by_cases hfound : st2.2.any (fun i => decide ((⟨x, y, 0, 0⟩ : Rect) ∈ i)) = true
    · have hd : cleanIslandsStep st2 x y = st2 := by
        simp only [cleanIslandsStep]
        rw [if_pos hfound]
      rw [hd]
      exact hst2
    · by_cases hok : okCell st2.1 DungeonTile.void (x, y)
      · have hge := hbig x y (hst2 ▸ hok)
        have hsmall : ¬((countIslandPolar st2.1 x y DungeonTile.void).1 <
            st2.1.minIslandSize) := by
          rw [hst2]
          omega
        have hd : cleanIslandsStep st2 x y =
            (st2.1, st2.2 ++ [(countIslandPolar st2.1 x y DungeonTile.void).2]) := by
          simp only [cleanIslandsStep]
          rw [if_neg hfound, if_neg hsmall]
        rw [hd]
        exact hst2
      · have hnil : (countIslandPolar st2.1 x y DungeonTile.void).2 = [] := by
          show floodAux st2.1 DungeonTile.void
            (st2.1.width.toNat * st2.1.height.toNat + 1) [] x y = []
          exact flood_nonok_nil st2.1 DungeonTile.void x y hok _
        have hd : (cleanIslandsStep st2 x y).1 = st2.1 := by
          simp only [cleanIslandsStep]
          rw [if_neg hfound]
          show (if (countIslandPolar st2.1 x y DungeonTile.void).1 <
              st2.1.minIslandSize then
              (countIslandPolar st2.1 x y DungeonTile.void).2.foldl
                (fun a2 co => (SetTile a2 co.x co.y DungeonTile.floor).2) st2.1
            else st2.1) = st2.1
          split
          · rw [hnil]
            rfl
          · rfl
        rw [hd]
        exact hst2

/-- Claim C7: `CleanIslands` is idempotent on every well-formed grid
(non-negative border, tile array of the declared dimensions): running it
twice produces exactly the same dungeon — in particular the same `Tiles`
array — as running it once.  The first run removes every undersized void
island whole, so every surviving void cell lies in an island of size at
least `MinIslandSize` and the second run converts nothing. -/
theorem claimC7 (d : Dungeon) (hb : 0 ≤ d.border)
    (hdims : TilesDims d.width d.height d.tiles) :
    CleanIslands (CleanIslands d) = CleanIslands d :=
  cleanIslands_id (CleanIslands d) (fun x y hok =>
    cleanIslands_bigIslands d hb hdims x y hok)

/-- Claim C7, witness: the 4×4 dungeon `bareD` is well-formed and
`CleanIslands` is idempotent on it. -/
theorem claimC7_witness :
    ((0 : Int) ≤ bareD.border ∧ TilesDims bareD.width bareD.height bareD.tiles) ∧
      CleanIslands (CleanIslands bareD) = CleanIslands bareD :=
  ⟨⟨by decide, by decide⟩, claimC7 bareD (by decide) (by decide)⟩

end ZenGen
